import Mathlib

/-!
# A verification model of the inno-updater core

This file gives a shallow embedding, in Lean 4, of the algorithmic core of
`inno-updater` (a self-update helper shipped with an Inno-Setup-installed
application), together with theorems checking the natural-language
specification of that core against the code.

The embedding follows the Rust sources:
* `src/model/filerec.rs` — record codec, path-list codec, path rebasing;
* `src/model/header.rs` — 448-byte header codec with CRC-32/ISO-HDLC;
* `src/blockio.rs` — block-framed stream reader;
* `src/util.rs` — quadratic-backoff retry;
* `src/main.rs` — three-way rename, dedup pass of `patch_uninstdat`.

Modelling conventions:
* Byte streams are `List Nat` (each element a byte value; little-endian
  multi-byte fields are decoded by `readLE`).
* Rust `String` values are modelled as lists of Unicode scalar values
  (`List Nat`), which is exactly the information content of a Rust string.
* Machine integers are modelled as `Nat`/`Int` with explicit wrapping
  (`wrapI32`, `i32AsU64`) where the Rust code can wrap (release-mode
  semantics of `as` casts and of wrapping negation).
* Fallible Rust code returns the three-valued `DRes`: `ok`, `err` (a Rust
  `Err` value) or `panicked` (a Rust panic / failed assertion, which is not
  an error value).
-/

namespace Inno

set_option maxRecDepth 8000
set_option linter.unusedVariables false


/-- Result of running a fallible, possibly panicking Rust computation. -/
inductive DRes (α : Type) where
  | ok (a : α)
  | err (msg : String)
  | panicked
deriving DecidableEq, Repr

/-- Whether a `DRes` is a success. -/
def DRes.isOk {α : Type} [DecidableEq α] : DRes α → Bool
  | .ok _ => true
  | _ => false

/-! ## Byte-stream primitives

`readLE k l` reads a `k`-byte little-endian unsigned integer from the front
of the stream `l`, returning the value and the remaining stream; it models
`byteorder`'s `read_u16::<LittleEndian>` / `read_u32::<LittleEndian>`
(`None` models the `Err` of an exhausted reader). -/

def readLE : Nat → List Nat → Option (Nat × List Nat)
  | 0, l => some (0, l)
  | _ + 1, [] => none
  | k + 1, b :: l =>
    match readLE k l with
    | none => none
    | some (n, r) => some (b + 256 * n, r)

/-- Little-endian encoding of `n` into `k` bytes (models `write_uNN::<LittleEndian>`). -/
def le : Nat → Nat → List Nat
  | 0, _ => []
  | k + 1, n => n % 256 :: le k (n / 256)

/-- Total little-endian value of the first `k` bytes (missing bytes read as 0);
used only where the surrounding code has already checked the stream is long
enough. -/
def leVal : Nat → List Nat → Nat
  | 0, _ => 0
  | _ + 1, [] => 0
  | k + 1, b :: l => b + 256 * leVal k l

/-- Models `Read::read_exact` into a `n`-byte buffer: take exactly `n` bytes
or fail. -/
def takeExact (n : Nat) (l : List Nat) : Option (List Nat × List Nat) :=
  if n ≤ l.length then some (l.take n, l.drop n) else none

/-- Wrap an integer into the `i32` value range, modelling release-mode
(wrapping) `i32` arithmetic and `as i32` casts. -/
def wrapI32 (s : Int) : Int := (s + 2 ^ 31) % 2 ^ 32 - 2 ^ 31

/-- The `u32` bit pattern of an `i32` value (models `write_i32`). -/
def u32OfI32 (s : Int) : Nat := (s % 2 ^ 32).toNat

/-- Sign-extending cast of an `i32` value to `usize` (64-bit), modelling
Rust's `as usize` on an `i32`. -/
def i32AsU64 (s : Int) : Nat := (s % 2 ^ 64).toNat

/-! ## CRC-32 (ISO-HDLC, a.k.a. IEEE): the checksum used both by the header
codec (`crc` crate, `CRC_32_ISO_HDLC`) and by the block stream
(`crc32::IEEE`). Reflected polynomial `0xEDB88320`, initial value
`0xFFFFFFFF`, final xor `0xFFFFFFFF`. -/

/-- The reflected CRC-32 polynomial. -/
def crcPoly : Nat := 0xEDB88320

/-- One bit-step of the reflected CRC-32 register update. -/
def crcStep (c : Nat) : Nat :=
  if c % 2 = 1 then (c >>> 1) ^^^ crcPoly else c >>> 1

/-- Feed one byte into the CRC register: xor it in, then run 8 bit-steps. -/
def crcByteStep (c b : Nat) : Nat := crcStep^[8] (c ^^^ b)

/-- CRC-32/ISO-HDLC of a byte sequence. -/
def crc32 (bs : List Nat) : Nat := (bs.foldl crcByteStep 0xFFFFFFFF) ^^^ 0xFFFFFFFF

/-! ### CRC-32 detects any single-bit error

The following development proves that two byte sequences differing in
exactly one (xor-)position have different CRC-32 checksums, the property
behind the header-corruption claim. -/

/-- A byte list that is zero everywhere except for value `v` at index `i`. -/
def oneAt (n i v : Nat) : List Nat := (List.replicate n 0).set i v

/-! ## Unicode: UTF-16 code units and UTF-8 validation

Rust strings are modelled as lists of Unicode scalar values. `utf16Enc`
models `str::encode_utf16` for one scalar; `utf16Decode` models
`String::from_utf16` (failing on lone surrogates); `utf8Valid` models the
validation performed by `String::from_utf8`. -/

/-- A Unicode scalar value: in range and not a surrogate. -/
def isScalar (v : Nat) : Prop := v < 0x110000 ∧ (v < 0xD800 ∨ 0xE000 ≤ v)

instance (v : Nat) : Decidable (isScalar v) := by unfold isScalar; infer_instance

/-- UTF-16 code units of one scalar value (models `str::encode_utf16`). -/
def utf16Enc (v : Nat) : List Nat :=
  if v < 0x10000 then [v]
  else [0xD800 + (v - 0x10000) / 0x400, 0xDC00 + (v - 0x10000) % 0x400]

/-- Decode a list of UTF-16 code units into scalar values; `none` on a lone
or misplaced surrogate (models `String::from_utf16`). -/
def utf16Decode : List Nat → Option (List Nat)
  | [] => some []
  | u :: rest =>
    if u < 0xD800 ∨ 0xE000 ≤ u then (utf16Decode rest).map (u :: ·)
    else if u < 0xDC00 then
      match rest with
      | u2 :: rest2 =>
        if 0xDC00 ≤ u2 ∧ u2 < 0xE000 then
          (utf16Decode rest2).map ((0x10000 + (u - 0xD800) * 0x400 + (u2 - 0xDC00)) :: ·)
        else none
      | [] => none
    else none

/-- Is `c` a UTF-8 continuation byte? -/
def utf8Cont (c : Nat) : Prop := 0x80 ≤ c ∧ c ≤ 0xBF

instance (c : Nat) : Decidable (utf8Cont c) := by unfold utf8Cont; infer_instance

/-- Strict UTF-8 validity of a byte list, as checked by `String::from_utf8`
(rejects overlong encodings, surrogates, and values above `0x10FFFF`). -/
def utf8Valid : List Nat → Bool
  | [] => true
  | b :: l =>
    if b < 0x80 then utf8Valid l
    else if 0xC2 ≤ b ∧ b ≤ 0xDF then
      match l with
      | c1 :: l1 => if utf8Cont c1 then utf8Valid l1 else false
      | [] => false
    else if b = 0xE0 then
      match l with
      | c1 :: c2 :: l2 => if 0xA0 ≤ c1 ∧ c1 ≤ 0xBF ∧ utf8Cont c2 then utf8Valid l2 else false
      | _ => false
    else if 0xE1 ≤ b ∧ b ≤ 0xEC then
      match l with
      | c1 :: c2 :: l2 => if utf8Cont c1 ∧ utf8Cont c2 then utf8Valid l2 else false
      | _ => false
    else if b = 0xED then
      match l with
      | c1 :: c2 :: l2 => if 0x80 ≤ c1 ∧ c1 ≤ 0x9F ∧ utf8Cont c2 then utf8Valid l2 else false
      | _ => false
    else if 0xEE ≤ b ∧ b ≤ 0xEF then
      match l with
      | c1 :: c2 :: l2 => if utf8Cont c1 ∧ utf8Cont c2 then utf8Valid l2 else false
      | _ => false
    else if b = 0xF0 then
      match l with
      | c1 :: c2 :: c3 :: l3 =>
        if 0x90 ≤ c1 ∧ c1 ≤ 0xBF ∧ utf8Cont c2 ∧ utf8Cont c3 then utf8Valid l3 else false
      | _ => false
    else if 0xF1 ≤ b ∧ b ≤ 0xF3 then
      match l with
      | c1 :: c2 :: c3 :: l3 =>
        if utf8Cont c1 ∧ utf8Cont c2 ∧ utf8Cont c3 then utf8Valid l3 else false
      | _ => false
    else if b = 0xF4 then
      match l with
      | c1 :: c2 :: c3 :: l3 =>
        if 0x80 ≤ c1 ∧ c1 ≤ 0x8F ∧ utf8Cont c2 ∧ utf8Cont c3 then utf8Valid l3 else false
      | _ => false
    else false

/-- The scalar values of a Lean string literal; used to write byte/character
lists for ASCII data concisely. -/
def str (s : String) : List Nat := s.toList.map Char.toNat

/-! ## The path-list codec of `filerec.rs`

`decode_strings` parses the nested path-list framing inside
DeleteDirOrFiles/DeleteFile payloads: repeated `0xFE, <i32-LE byte count,
stored negated>, <UTF-16LE data>` entries, terminated by a final `0xFF`
byte that must end the payload. `encode_strings` is the inverse writer.
The `assert_eq!(size % 2, 0)` of the Rust code is modelled by `.panicked`.
-/

/-- The `k` little-endian `u16` values held in the first `2*k` bytes of a
stream (models the buffer filled by `read_u16_into::<LittleEndian>`; callers
guard the stream length first, as the Rust reader's error does). -/
def u16Vals : Nat → List Nat → List Nat
  | 0, _ => []
  | k + 1, l => leVal 2 l :: u16Vals k (l.drop 2)

/-- One entry of the path-list encoding: `0xFE`, the negated byte count as a
little-endian `i32`, then the UTF-16LE data (from `encode_strings`). -/
def encodeEntry (s : List Nat) : List Nat :=
  let u16data := s.flatMap utf16Enc
  let size := u16data.length * 2
  0xfe :: le 4 (u32OfI32 (wrapI32 (- wrapI32 size))) ++ u16data.flatMap (le 2)

/-- Models `encode_strings`: all entries, then the terminating `0xFF`. -/
def encode_strings (strings : List (List Nat)) : List Nat :=
  strings.flatMap encodeEntry ++ [0xff]

/-- Outcome of handling one `0xFE` entry body (everything after the marker
byte): fail with a Rust error, hit the `assert_eq!(size % 2, 0)` panic,
produce a decoded string together with the number of data bytes consumed,
or skip (a zero `size`, which pushes no string). -/
inductive EntryStep where
  | fail (msg : String)
  | panicked
  | push (s : List Nat) (consumed : Nat)
  | skip
deriving DecidableEq, Repr

/-- Handle one `0xFE` entry of `decode_strings`, given the slice right after
the marker byte: read the little-endian `i32` size field (failing, as
`read_i32` does, when fewer than 4 bytes remain), negate it with wrapping
`i32` semantics (`-size` wraps at `i32::MIN`) and sign-extend to `usize`
(`as usize`), check the `assert_eq!(size % 2, 0)` assertion, run
`vec![0; size / 2]` — which panics with a capacity overflow when the
buffer's `size` bytes exceed `isize::MAX`, i.e. when a stored positive or
`i32::MIN` size wrapped to near `2^64` — then read and UTF-16-decode
`2 * (size / 2)` bytes of data. -/
def handleEntry : List Nat → EntryStep
  | b0 :: b1 :: b2 :: b3 :: r2 =>
    let size : Nat :=
      i32AsU64 (wrapI32 (- wrapI32 (b0 + 256 * b1 + 65536 * b2 + 16777216 * b3)))
    if 0 < size then
      if size % 2 ≠ 0 then .panicked
      else if 2 ^ 63 ≤ size then .panicked
      else if r2.length < 2 * (size / 2) then .fail "Failed to parse file rec data string"
      else
        match utf16Decode (u16Vals (size / 2) r2) with
        | none => .fail "Failed to parse file rec data string"
        | some s => .push s (2 * (size / 2))
    else .skip
  | _ => .fail "Failed to parse file rec string size"

/-- The loop of `decode_strings`, carrying the accumulated result. Returns
`.panicked` exactly where the Rust code panics: the `assert_eq!(size % 2, 0)`
assertion, or the capacity overflow of `vec![0; size / 2]` on a wrapped size.
The sequential reads of the Rust loop are rendered by `handleEntry` plus
`drop` offsets into the slice, which is the same reader semantics: after a
successful entry the slice advances by 4 size bytes plus the consumed data
bytes. -/
def decodeStringsGo (acc : List (List Nat)) (slice : List Nat) :
    DRes (List (List Nat)) :=
  match slice with
  | [] => .err "Failed to parse file rec string header"
  | b :: rest =>
    if b = 0xfe then
      match handleEntry rest with
      | .fail msg => .err msg
      | .panicked => .panicked
      | .push s consumed => decodeStringsGo (acc ++ [s]) ((rest.drop 4).drop consumed)
      | .skip => decodeStringsGo acc (rest.drop 4)
    else if b = 0xff then
      if rest.isEmpty then .ok acc else .err "Invalid file rec string header length"
    else .err "Invalid file rec string header"
  termination_by slice.length
  decreasing_by
  · simp only [List.length_cons, List.length_drop]
    omega
  · simp only [List.length_cons, List.length_drop]
    omega

/-- Models `decode_strings`. -/
def decode_strings (data : List Nat) : DRes (List (List Nat)) :=
  decodeStringsGo [] data

/-! ## FileRec: one uninstall-log record (`filerec.rs`)

`UninstallRecTyp::from` has a catch-all `panic!("")` for unknown
discriminants; `typFrom` returns `none` exactly there, and
`FileRec.from_reader` maps that `none` to `.panicked`. -/

inductive UninstallRecTyp where
  | UserDefined
  | StartInstall
  | EndInstall
  | CompiledCode
  | Run
  | DeleteDirOrFiles
  | DeleteFile
  | DeleteGroupOrItem
  | IniDeleteEntry
  | IniDeleteSection
  | RegDeleteEntireKey
  | RegClearValue
  | RegDeleteKeyIfEmpty
  | RegDeleteValue
  | DecrementSharedCount
  | RefreshFileAssoc
  | MutexCheck
deriving DecidableEq, Repr

/-- The 16-bit discriminant of each record type. -/
def UninstallRecTyp.code : UninstallRecTyp → Nat
  | .UserDefined => 0x01
  | .StartInstall => 0x10
  | .EndInstall => 0x11
  | .CompiledCode => 0x20
  | .Run => 0x80
  | .DeleteDirOrFiles => 0x81
  | .DeleteFile => 0x82
  | .DeleteGroupOrItem => 0x83
  | .IniDeleteEntry => 0x84
  | .IniDeleteSection => 0x85
  | .RegDeleteEntireKey => 0x86
  | .RegClearValue => 0x87
  | .RegDeleteKeyIfEmpty => 0x88
  | .RegDeleteValue => 0x89
  | .DecrementSharedCount => 0x8A
  | .RefreshFileAssoc => 0x8B
  | .MutexCheck => 0x8C

/-- Models `UninstallRecTyp::from`; `none` is the `panic!("")` arm. -/
def typFrom (i : Nat) : Option UninstallRecTyp :=
  if i = 0x01 then some .UserDefined
  else if i = 0x10 then some .StartInstall
  else if i = 0x11 then some .EndInstall
  else if i = 0x20 then some .CompiledCode
  else if i = 0x80 then some .Run
  else if i = 0x81 then some .DeleteDirOrFiles
  else if i = 0x82 then some .DeleteFile
  else if i = 0x83 then some .DeleteGroupOrItem
  else if i = 0x84 then some .IniDeleteEntry
  else if i = 0x85 then some .IniDeleteSection
  else if i = 0x86 then some .RegDeleteEntireKey
  else if i = 0x87 then some .RegClearValue
  else if i = 0x88 then some .RegDeleteKeyIfEmpty
  else if i = 0x89 then some .RegDeleteValue
  else if i = 0x8A then some .DecrementSharedCount
  else if i = 0x8B then some .RefreshFileAssoc
  else if i = 0x8C then some .MutexCheck
  else none

/-- One uninstall-log record: tagged type, opaque extra data, raw payload. -/
structure FileRec where
  typ : UninstallRecTyp
  extra_data : Nat
  data : List Nat
deriving DecidableEq, Repr

/-- Models `FileRec::from_reader`: reads the `u16` discriminant, `u32` extra
data and `u32` payload size, rejects sizes above 128 MB (`0x8000000` bytes),
reads the payload, and only then converts the discriminant — panicking, like
`UninstallRecTyp::from`, on an unknown value. Returns the record and the
rest of the stream. -/
def FileRec.from_reader (input : List Nat) : DRes (FileRec × List Nat) :=
  match readLE 2 input with
  | none => .err "Failed to parse file rec typ"
  | some (typ, r1) =>
    match readLE 4 r1 with
    | none => .err "Failed to parse file rec extra data"
    | some (extra_data, r2) =>
      match readLE 4 r2 with
      | none => .err "Failed to parse file rec data size"
      | some (data_size, r3) =>
        if data_size > 0x8000000 then .err "File rec data size too large"
        else
          match takeExact data_size r3 with
          | none => .err "Failed to parse file rec data"
          | some (data, r4) =>
            match typFrom typ with
            | none => .panicked
            | some t => .ok (⟨t, extra_data, data⟩, r4)

/-- Models `FileRec::to_writer`: discriminant, extra data, payload size,
payload bytes. -/
def FileRec.to_writer (rec : FileRec) : List Nat :=
  le 2 rec.typ.code ++ le 4 (rec.extra_data % 2 ^ 32) ++
    le 4 (rec.data.length % 2 ^ 32) ++ rec.data

/-- Models `FileRec::get_paths`. -/
def FileRec.get_paths (rec : FileRec) : DRes (List (List Nat)) :=
  decode_strings rec.data

/-! ## Path rebasing (`FileRec::rebase`)

The Rust code works through `std::path` on Windows. The model below renders
the operations the code uses — `Path::strip_prefix`, `Path::parent`,
`PathBuf::join`, `to_str` — for backslash-separated Windows paths (drive
letters and plain components; the exotic `\\?\`-prefix and UNC forms, and
`/` separators, are outside the inputs this program handles). Paths are
scalar-value lists; `92` is the backslash. -/

/-- Drop trailing backslashes (path components ignore trailing separators). -/
def dropTrailingSeps (p : List Nat) : List Nat :=
  (p.reverse.dropWhile (· = 92)).reverse

/-- Models `Path::strip_prefix(from)` for these paths: succeeds when the
normalized prefix is the whole path (remainder `[]`) or a proper component
prefix (followed by a separator), returning the remainder slice. -/
def stripPathFront (fr p : List Nat) : Option (List Nat) :=
  if p = dropTrailingSeps fr then some []
  else if (dropTrailingSeps fr ++ [92]).isPrefixOf p then
    some (p.drop ((dropTrailingSeps fr).length + 1))
  else none

/-- Models `Path::parent ∘ to_str` for these paths: strip trailing
separators, cut at the last separator; a drive root keeps its backslash
(`"C:\\Code"` → `"C:\\"`), a bare drive or empty path has no parent. -/
def parentPath (p : List Nat) : Option (List Nat) :=
  let q := dropTrailingSeps p
  if q = [] then none
  else if ¬ q.contains 92 then
    if q.length = 2 ∧ q.getD 1 0 = 58 then none else some []
  else
    let tail := q.reverse.takeWhile (· ≠ 92)
    let cut := dropTrailingSeps (q.take (q.length - tail.length))
    if cut ≠ [] ∧ cut.getLast? = some 58 then some (cut ++ [92]) else some cut

/-- Models `PathBuf::from(to).join(rem)` followed by `to_str`: insert a
separator unless one is already there (or `to` is empty). -/
def joinPath (dst rem : List Nat) : List Nat :=
  if dst = [] then rem
  else if dst.getLast? = some 92 then dst ++ rem
  else dst ++ 92 :: rem

/-- The per-path rebasing step of `FileRec::rebase`: strip the staging
prefix, join onto the parent, drop one trailing backslash; any failure
falls back to the original path (`unwrap_or(original)`). -/
def rebaseOne (updatePath dst original : List Nat) : List Nat :=
  match stripPathFront updatePath original with
  | none => original
  | some rem =>
    let joined := joinPath dst rem
    if joined.getLast? = some 92 then joined.dropLast else joined

/-- Models `FileRec::rebase`: decode the payload's path list (propagating
its error or panic for the whole record), compute the staging directory's
parent (`RebaseError` if it has none), rebase each path with per-path
fallback, and re-encode. (`encode_strings` in the Rust code can only fail
on a `Vec` write, which cannot happen, so re-encoding is total here.) -/
def FileRec.rebase (rec : FileRec) (update_path : List Nat) : DRes FileRec :=
  match decode_strings rec.data with
  | .panicked => .panicked
  | .err e => .err e
  | .ok paths =>
    match parentPath update_path with
    | none => .err "Rebase error"
    | some dst =>
      .ok ⟨rec.typ, rec.extra_data,
        encode_strings (paths.map (rebaseOne update_path dst))⟩

/-! ## The dedup pass of `patch_uninstdat` (`main.rs`)

Among records of type DeleteDirOrFiles/DeleteFile whose decoded path list
has exactly one entry, only the first occurrence of each distinct path is
kept (a `HashSet<String>` of seen paths); records whose paths fail to
decode are dropped; everything else passes through. -/

/-- Is this one of the two delete record types the dedup pass inspects? -/
def isDeleteTyp (t : UninstallRecTyp) : Bool :=
  t = UninstallRecTyp.DeleteDirOrFiles ∨ t = UninstallRecTyp.DeleteFile

/-- What the dedup filter closure decides for one record, given the set of
seen paths: propagate a decode panic, drop the record, or keep it (with the
possibly-extended seen set). -/
inductive DedupStep where
  | panicked
  | drop
  | keep (newSeen : List (List Nat))
deriving DecidableEq, Repr

/-- The body of the dedup filter closure in `patch_uninstdat`: non-delete
records are kept; a delete record's paths are decoded (errors drop the
record, a panic aborts); multi-path records are kept; a single-path record
is kept only when its path is not yet in the seen set, which it then
joins. -/
def dedupStep (seen : List (List Nat)) (rec : FileRec) : DedupStep :=
  if ¬ isDeleteTyp rec.typ then .keep seen
  else
    match rec.get_paths with
    | .panicked => .panicked
    | .err _ => .drop
    | .ok paths =>
      if paths.length ≠ 1 then .keep seen
      else if paths.headD [] ∈ seen then .drop
      else .keep (paths.headD [] :: seen)

/-- The filter loop of the dedup pass, carrying the set of seen paths
(modelled as a list with membership, which is all the `HashSet` is used
for). A record whose path decode panics propagates the panic. -/
def dedupGo (seen : List (List Nat)) : List FileRec → DRes (List FileRec)
  | [] => .ok []
  | rec :: rest =>
    match dedupStep seen rec with
    | .panicked => .panicked
    | .drop => dedupGo seen rest
    | .keep newSeen =>
      match dedupGo newSeen rest with
      | .ok out => .ok (rec :: out)
      | e => e

/-- Should `rec` be kept, given the records `prior` that precede it? This is
the spec-side reading of the dedup pass: a delete-typed record with exactly
one decoded path is kept iff no earlier delete-typed record decoded to the
same single path. -/
def keepsRec (prior : List FileRec) (rec : FileRec) : Bool :=
  if ¬ isDeleteTyp rec.typ then true
  else
    match rec.get_paths with
    | .ok paths =>
      if paths.length ≠ 1 then true
      else ¬ prior.any (fun r => isDeleteTyp r.typ ∧ r.get_paths = .ok paths)
    | _ => false

/-- Reference (spec-side) formulation of the dedup output: keep each record
iff `keepsRec` holds of it and its predecessors. -/
def dedupSpec (prior : List FileRec) : List FileRec → List FileRec
  | [] => []
  | rec :: rest =>
    if keepsRec prior rec then rec :: dedupSpec (prior ++ [rec]) rest
    else dedupSpec (prior ++ [rec]) rest

/-! ## The 448-byte header (`header.rs`, `strings.rs`)

Offsets inside the 448-byte buffer: id at 0 (64 bytes), app id at 64
(128), app name at 192 (128), `i32` version at 320, `i32` record count at
324, `u32` end offset at 328, `u32` flags at 332, 108 reserved bytes at
336, `u32` CRC at 444 over the first 444 bytes. -/

/-- Models `strings::read_utf8_string` on a field buffer: cut at the first
NUL — with the quirk that a field with no NUL anywhere is cut at 64
(`unwrap_or(64)`), whatever its capacity — then validate as UTF-8
(`String::from_utf8`); the value is the validated byte prefix. -/
def read_utf8_field (bytes : List Nat) : Option (List Nat) :=
  let pos := ((bytes.findIdx? (· = 0)).getD 64)
  let pref := bytes.take pos
  if utf8Valid pref then some pref else none

/-- The two recognized magic identifiers. -/
def HEADER_ID_32 : List Nat := str "Inno Setup Uninstall Log (b)"

/-- The 64-bit variant of the magic identifier. -/
def HEADER_ID_64 : List Nat := str "Inno Setup Uninstall Log (b) 64-bit"

/-- The highest log version this updater understands. -/
def HIGHEST_SUPPORTED_VERSION : Int := 1048

/-- The in-memory header; string fields hold their decoded (NUL-trimmed)
bytes. -/
structure Header where
  id : List Nat
  app_id : List Nat
  app_name : List Nat
  version : Int
  num_recs : Nat
  end_offset : Nat
  flags : Nat
  crc : Nat
deriving DecidableEq, Repr

/-- Models `Header::from_reader`: read exactly 448 bytes (no partial header
is accepted), parse the three string fields (each can fail UTF-8
validation), read the numeric fields, then validate — in this order — the
CRC-32 of the first 444 bytes against the stored CRC, the identifier
against the two magic strings, and the version bound. Returns the header
and the rest of the stream. -/
def Header.from_reader (input : List Nat) : DRes (Header × List Nat) :=
  match takeExact 448 input with
  | none => .err "Failed to read header to buffer"
  | some (buf, rest) =>
    match read_utf8_field (buf.take 64) with
    | none => .err "Failed to parse header ID"
    | some id =>
      match read_utf8_field ((buf.drop 64).take 128) with
      | none => .err "Failed to parse header app ID"
      | some app_id =>
        match read_utf8_field ((buf.drop 192).take 128) with
        | none => .err "Failed to parse header app name"
        | some app_name =>
          if crc32 (buf.take 444) ≠ leVal 4 (buf.drop 444) then
            .err "CRC32 check failed"
          else if id ≠ HEADER_ID_32 ∧ id ≠ HEADER_ID_64 then
            .err "Invalid header ID"
          else if wrapI32 (leVal 4 (buf.drop 320)) > HIGHEST_SUPPORTED_VERSION then
            .err "Header version not supported"
          else
            .ok (⟨id, app_id, app_name, wrapI32 (leVal 4 (buf.drop 320)),
              i32AsU64 (wrapI32 (leVal 4 (buf.drop 324))),
              leVal 4 (buf.drop 328), leVal 4 (buf.drop 332),
              leVal 4 (buf.drop 444)⟩, rest)

/-- Modelled from the spec: `clone_with_num_recs` (called by
`patch_uninstdat` but not present in the sources) — "The header's record
count must be updated to match the surviving record count": a copy of the
header with `num_recs` replaced. -/
def Header.clone_with_num_recs (h : Header) (n : Nat) : Header :=
  { h with num_recs := n }

/-! ## The block-framed stream reader (`blockio.rs`)

Each block: `u32` length, `u32` bitwise complement of the length, `u32`
CRC-32 of the payload, then the payload (at most 4096 bytes). -/

/-- Kind of an `io::Error` in the model: enough to tell `InvalidData`
(the data-integrity kind used for corrupt blocks) from other errors. -/
inductive IoKind where
  | invalidData
  | other
deriving DecidableEq, Repr

/-- Bitwise complement within `u32` (Rust `!x` on a `u32`). -/
def not32 (n : Nat) : Nat := n ^^^ 0xFFFFFFFF

/-- Models `BlockRead::fill_buffer`: read the three header words, check
`size == !not_size`, check `size ≤ 4096`, read the payload, check its
CRC-32; a corrupt block yields an `InvalidData` error. Returns the payload
and the remaining stream. -/
def fill_buffer (stream : List Nat) :
    Except (IoKind × String) (List Nat × List Nat) :=
  match readLE 4 stream with
  | none => .error (.other, "failed to read block size")
  | some (size, s1) =>
    match readLE 4 s1 with
    | none => .error (.other, "failed to read block size complement")
    | some (notSize, s2) =>
      match readLE 4 s2 with
      | none => .error (.other, "failed to read block crc32")
      | some (crc, s3) =>
        if size ≠ not32 notSize then
          .error (.invalidData, "Block header size is corrupt")
        else if size > 4096 then
          .error (.invalidData, "Block header size is too large")
        else
          match takeExact size s3 with
          | none => .error (.other, "failed to read block payload")
          | some (payload, s4) =>
            if crc32 payload ≠ crc then
              .error (.invalidData, "Block header crc32 check failed")
            else .ok (payload, s4)

/-- State of a `BlockRead`: the remaining underlying stream and the unread
part of the current block buffer (`buffer[pos..pos+left]`). -/
structure BlockReadState where
  stream : List Nat
  buffer : List Nat
deriving DecidableEq, Repr

/-- Models `BlockRead::read` for a destination buffer of `n` bytes: drain
the internal buffer, refilling it with `fill_buffer` whenever it empties; a
refill error is returned at once (no resynchronization or recovery). -/
def blockRead (n : Nat) (st : BlockReadState) :
    Except (IoKind × String) (List Nat × BlockReadState) :=
  if n = 0 then .ok ([], st)
  else
    match st.buffer with
    | [] =>
      match hfill : fill_buffer st.stream with
      | .error e => .error e
      | .ok (payload, rest) => blockRead n ⟨rest, payload⟩
    | b :: buf =>
      match blockRead (n - 1) ⟨st.stream, buf⟩ with
      | .error e => .error e
      | .ok (bs, st2) => .ok (b :: bs, st2)
  termination_by (st.stream.length, n)
  decreasing_by
  · apply Prod.Lex.left
    -- the refill strictly consumed input: a successful `fill_buffer` read
    -- at least the 12 header bytes
    have readlen : ∀ (k : Nat) (l : List Nat) (n : Nat) (r : List Nat),
        readLE k l = some (n, r) → r.length + k = l.length := by
      intro k
      induction k with
      | zero => intro l n r h; simp [readLE] at h; simp [h]
      | succ k ih =>
        intro l n r h
        cases l with
        | nil => simp [readLE] at h
        | cons b l2 =>
          simp only [readLE] at h
          cases hr : readLE k l2 with
          | none => rw [hr] at h; simp at h
          | some p =>
            rw [hr] at h
            obtain ⟨n2, r2⟩ := p
            simp at h
            obtain ⟨-, h2⟩ := h
            rw [h2] at hr
            have := ih l2 n2 r hr
            simp only [List.length_cons]
            omega
    have h := hfill
    unfold fill_buffer at h
    cases h1 : readLE 4 st.stream with
    | none => rw [h1] at h; exact absurd h (by simp)
    | some p1 =>
      rw [h1] at h
      obtain ⟨size, s1⟩ := p1
      simp only [] at h
      cases h2 : readLE 4 s1 with
      | none => rw [h2] at h; exact absurd h (by simp)
      | some p2 =>
        rw [h2] at h
        obtain ⟨notSize, s2⟩ := p2
        simp only [] at h
        cases h3 : readLE 4 s2 with
        | none => rw [h3] at h; exact absurd h (by simp)
        | some p3 =>
          rw [h3] at h
          obtain ⟨crc, s3⟩ := p3
          simp only [] at h
          have l1 := readlen _ _ _ _ h1
          have l2 := readlen _ _ _ _ h2
          have l3 := readlen _ _ _ _ h3
          by_cases hc1 : size ≠ not32 notSize
          · rw [if_pos hc1] at h; exact absurd h (by simp)
          · rw [if_neg hc1] at h
            by_cases hc2 : size > 4096
            · rw [if_pos hc2] at h; exact absurd h (by simp)
            · rw [if_neg hc2] at h
              cases h4 : takeExact size s3 with
              | none => rw [h4] at h; exact absurd h (by simp)
              | some p4 =>
                rw [h4] at h
                obtain ⟨pl, s4⟩ := p4
                simp only [] at h
                unfold takeExact at h4
                by_cases hle : size ≤ s3.length
                · rw [if_pos hle] at h4
                  simp at h4
                  by_cases hc3 : crc32 pl ≠ crc
                  · rw [if_pos hc3] at h; exact absurd h (by simp)
                  · rw [if_neg hc3] at h
                    simp at h
                    have hlen4 : s4.length = s3.length - size := by
                      rw [← h4.2]
                      simp
                    have : rest.length = s4.length := by rw [h.2]
                    omega
                · rw [if_neg hle] at h4
                  exact absurd h4 (by simp)
  · exact Prod.Lex.right _ (by omega)

/-! ## The quadratic-backoff retry policy (`util.rs`)

`retry` invokes the closure with an attempt counter starting at 1; on
failure, once `attempt ≥ max_attempts`, a Retry/Cancel message box is
shown: Retry resets the counter to 0 (so the next attempt is 1 again),
anything else returns the last error. After the bound check the loop
sleeps `attempt² × 50` ms and retries. The message box is modelled by a
finite oracle of user answers; an exhausted oracle answers Cancel. The
sleeps performed are collected for the statements about backoff. -/

/-- A user's answer to the Retry/Cancel message box. -/
inductive MBAnswer where
  | retry
  | cancel
deriving DecidableEq, Repr

/-- Result of a `retry` run: the final `Result` plus the list of sleep
durations (in milliseconds) performed, in order. -/
structure RetryOutcome (E R : Type) where
  result : Except E R
  sleeps : List Nat

/-- The retry loop. `attempt` is the counter value before the increment at
the top of the loop body. -/
def retryGo {E R : Type} (closure : Nat → Except E R) (maxAttempts : Nat)
    (oracle : List MBAnswer) (attempt : Nat) (sleeps : List Nat) : RetryOutcome E R :=
  match closure (attempt + 1) with
  | .ok r => ⟨.ok r, sleeps⟩
  | .error e =>
    if attempt + 1 ≥ maxAttempts then
      match oracle with
      | .retry :: oracle2 => retryGo closure maxAttempts oracle2 0 (sleeps ++ [0])
      | _ => ⟨.error e, sleeps⟩
    else
      retryGo closure maxAttempts oracle (attempt + 1)
        (sleeps ++ [(attempt + 1) ^ 2 * 50])
  termination_by (oracle.length, maxAttempts - attempt)
  decreasing_by
  · exact Prod.Lex.left _ _ (by simp only [List.length_cons]; omega)
  · exact Prod.Lex.right _ (by omega)

/-- Models `util::retry`: `none` for `max_attempts` means the default 11. -/
def retry {E R : Type} (closure : Nat → Except E R) (max_attempts : Option Nat)
    (oracle : List MBAnswer) : RetryOutcome E R :=
  retryGo closure (max_attempts.getD 11) oracle 0 []

/-! ## Filesystem model and `perform_three_way_rename` (`main.rs`)

A filesystem is a finite map from paths to file contents (association
list, first entry wins). `fs::rename` on Windows (`MOVEFILE_REPLACE_EXISTING`)
moves the source over the destination, replacing it; it fails when the
source does not exist. -/

/-- A filesystem: association list from path to contents. -/
def Fs : Type := List (String × String)

instance : DecidableEq Fs := by unfold Fs; infer_instance

/-- Contents at a path, if the file exists. -/
def fsGet (fs : Fs) (p : String) : Option String :=
  (fs.find? (fun e => e.1 = p)).map (·.2)

/-- Models `Path::exists`. -/
def fsExists (fs : Fs) (p : String) : Bool :=
  (fsGet fs p).isSome

/-- Remove a path. -/
def fsRemove (fs : Fs) (p : String) : Fs :=
  fs.filter (fun e => e.1 ≠ p)

/-- Create or replace a file. -/
def fsSet (fs : Fs) (p : String) (v : String) : Fs :=
  (p, v) :: fsRemove fs p

/-- Models `fs::rename src dst`: fails iff the source is missing, else
moves it over the destination. -/
def fsRename (fs : Fs) (src dst : String) : Option Fs :=
  match fsGet fs src with
  | none => none
  | some v => some (fsSet (fsRemove fs src) dst v)

/-- Step 2 of the three-way rename: rename new→current; on failure attempt
the old→current rollback when the rollback file exists (ignoring a rollback
failure), and propagate the error. The error value carries the resulting
filesystem. -/
def threeWayStep2 (fs : Fs) (current_path old_path new_path : String) : Except Fs Fs :=
  match fsRename fs new_path current_path with
  | some fs2 => .ok fs2
  | none =>
    if fsExists fs old_path then
      match fsRename fs old_path current_path with
      | some fs2 => .error fs2
      | none => .error fs
    else .error fs

/-- Models `perform_three_way_rename`: if both the staged file N and the
current file C exist, rename C→O first; if N does not exist at all, succeed
without touching anything; then rename N→C with rollback on failure. -/
def perform_three_way_rename (fs : Fs) (current_path old_path new_path : String) :
    Except Fs Fs :=
  if fsExists fs new_path ∧ fsExists fs current_path then
    match fsRename fs current_path old_path with
    | none => .error fs
    | some fs1 => threeWayStep2 fs1 current_path old_path new_path
  else if ¬ fsExists fs new_path then .ok fs
  else threeWayStep2 fs current_path old_path new_path

/-! ## Concrete header buffers

Two 448-byte fixtures: `hdrBuf` is a fully valid header buffer (its last
four bytes hold the CRC-32 of its first 444), `hdrBufBad` is identical
except that its app-id field starts with the invalid UTF-8 byte `0x80`. -/

/-- First 444 bytes of a valid header: 32-bit id, app id `"A"`, app name
`"B"`, version 48, 2 records, end offset 0, flags 0, 108 reserved zeros. -/
def hdrPre : List Nat :=
  (HEADER_ID_32 ++ List.replicate 36 0) ++ (65 :: List.replicate 127 0) ++
    (66 :: List.replicate 127 0) ++ le 4 48 ++ le 4 2 ++ le 4 0 ++ le 4 0 ++
    List.replicate 108 0

/-- The valid 448-byte header buffer. -/
def hdrBuf : List Nat := hdrPre ++ le 4 (crc32 hdrPre)

/-- Like `hdrPre` but the app-id field starts with `0x80`, which no UTF-8
string begins with. -/
def hdrPreBad : List Nat :=
  (HEADER_ID_32 ++ List.replicate 36 0) ++ (0x80 :: List.replicate 127 0) ++
    (66 :: List.replicate 127 0) ++ le 4 48 ++ le 4 2 ++ le 4 0 ++ le 4 0 ++
    List.replicate 108 0

/-- The 448-byte buffer with a correct CRC but an invalid app-id field. -/
def hdrBufBad : List Nat := hdrPreBad ++ le 4 (crc32 hdrPreBad)

theorem readLE_length {k : Nat} {l r : List Nat} {n : Nat}
    (h : readLE k l = some (n, r)) : r.length + k = l.length := by
  induction k generalizing l n with
  | zero => simp [readLE] at h; simp [h]
  | succ k ih =>
    match l with
    | [] => simp [readLE] at h
    | b :: l' =>
      simp only [readLE] at h
      cases hr : readLE k l' with
      | none => rw [hr] at h; simp at h
      | some p =>
        rw [hr] at h
        obtain ⟨n', r'⟩ := p
        simp at h
        obtain ⟨-, h2⟩ := h
        rw [h2] at hr
        have := ih hr
        simp only [List.length_cons]
        omega

theorem readLE_le (v : Nat) {k : Nat} (hv : v < 2 ^ (8 * k)) (r : List Nat) :
    readLE k (le k v ++ r) = some (v, r) := by
  induction k generalizing v with
  | zero =>
    have hz : v = 0 := by simpa using hv
    subst hz
    simp [readLE, le]
  | succ k ih =>
    have h2 : v / 256 < 2 ^ (8 * k) := by
      apply Nat.div_lt_of_lt_mul
      calc v < 2 ^ (8 * (k + 1)) := hv
        _ = 256 * 2 ^ (8 * k) := by rw [show 8 * (k+1) = 8 + 8 * k by ring, pow_add]; norm_num
    have heq : le (k+1) v ++ r = v % 256 :: (le k (v / 256) ++ r) := by simp [le]
    rw [heq]
    show (match readLE k (le k (v / 256) ++ r) with
      | none => none
      | some (n, r') => some (v % 256 + 256 * n, r')) = some (v, r)
    rw [ih (v / 256) h2]
    simp
    omega

theorem leVal_le (v : Nat) {k : Nat} (hv : v < 2 ^ (8 * k)) (r : List Nat) :
    leVal k (le k v ++ r) = v := by
  induction k generalizing v with
  | zero =>
    have hz : v = 0 := by simpa using hv
    subst hz
    simp [leVal, le]
  | succ k ih =>
    have h2 : v / 256 < 2 ^ (8 * k) := by
      apply Nat.div_lt_of_lt_mul
      calc v < 2 ^ (8 * (k + 1)) := hv
        _ = 256 * 2 ^ (8 * k) := by rw [show 8 * (k+1) = 8 + 8 * k by ring, pow_add]; norm_num
    have heq : le (k+1) v ++ r = v % 256 :: (le k (v / 256) ++ r) := by simp [le]
    rw [heq]
    show v % 256 + 256 * leVal k (le k (v / 256) ++ r) = v
    rw [ih (v / 256) h2]
    omega

theorem crcStep_lt {c : Nat} (h : c < 2 ^ 32) : crcStep c < 2 ^ 32 := by
  unfold crcStep
  split
  · exact Nat.xor_lt_two_pow (by omega) (by norm_num [crcPoly])
  · omega

theorem crcStep_iter_lt {c : Nat} (n : Nat) (h : c < 2 ^ 32) : crcStep^[n] c < 2 ^ 32 := by
  induction n generalizing c with
  | zero => simpa using h
  | succ n ih =>
    rw [Function.iterate_succ_apply]
    exact ih (crcStep_lt h)

theorem crc32_lt (bs : List Nat) (h : ∀ b ∈ bs, b < 2 ^ 32) : crc32 bs < 2 ^ 32 := by
  unfold crc32
  have : ∀ (l : List Nat) (c : Nat), (∀ b ∈ l, b < 2 ^ 32) → c < 2 ^ 32 →
      l.foldl crcByteStep c < 2 ^ 32 := by
    intro l
    induction l with
    | nil => intro c _ hc; simpa using hc
    | cons a l ih =>
      intro c hl hc
      simp only [List.foldl_cons]
      exact ih _ (fun b hb => hl b (List.mem_cons_of_mem _ hb))
        (crcStep_iter_lt 8 (Nat.xor_lt_two_pow hc (hl a (List.mem_cons_self _ _))))
  exact Nat.xor_lt_two_pow (this bs _ h (by norm_num)) (by norm_num)

theorem shiftRight_one_xor (a b : Nat) : (a ^^^ b) >>> 1 = a >>> 1 ^^^ b >>> 1 := by
  apply Nat.eq_of_testBit_eq
  intro i
  simp [Nat.testBit_shiftRight, Nat.testBit_xor]

theorem mod_two_xor (a b : Nat) : (a ^^^ b) % 2 = a % 2 ^^^ b % 2 := by
  rw [← Nat.and_one_is_mod, Nat.and_xor_distrib_right, Nat.and_one_is_mod, Nat.and_one_is_mod]

theorem xor_left_comm (a b c : Nat) : a ^^^ (b ^^^ c) = b ^^^ (a ^^^ c) := by
  rw [← Nat.xor_assoc, Nat.xor_comm a b, Nat.xor_assoc]

theorem xor_cancel_left (a b : Nat) : a ^^^ (a ^^^ b) = b := by
  rw [← Nat.xor_assoc, Nat.xor_self, Nat.zero_xor]

theorem crcStep_xor (a b : Nat) : crcStep (a ^^^ b) = crcStep a ^^^ crcStep b := by
  unfold crcStep
  have hm := mod_two_xor a b
  rcases Nat.mod_two_eq_zero_or_one a with ha | ha <;>
    rcases Nat.mod_two_eq_zero_or_one b with hb | hb <;>
      simp only [ha, hb] at hm <;>
      simp [ha, hb, hm, shiftRight_one_xor, Nat.xor_assoc, Nat.xor_comm, xor_left_comm,
        xor_cancel_left, Nat.xor_self, Nat.xor_zero]

theorem crcStep_iter_xor (n : Nat) (a b : Nat) :
    crcStep^[n] (a ^^^ b) = crcStep^[n] a ^^^ crcStep^[n] b := by
  induction n generalizing a b with
  | zero => simp
  | succ n ih =>
    rw [Function.iterate_succ_apply, Function.iterate_succ_apply,
      Function.iterate_succ_apply, crcStep_xor, ih]

theorem crcByteStep_xor (c d a b : Nat) :
    crcByteStep (c ^^^ d) (a ^^^ b) = crcByteStep c a ^^^ crcByteStep d b := by
  unfold crcByteStep
  rw [show (c ^^^ d) ^^^ (a ^^^ b) = (c ^^^ a) ^^^ (d ^^^ b) by
    simp [Nat.xor_assoc, Nat.xor_comm, xor_left_comm]]
  exact crcStep_iter_xor 8 _ _

/-- Linearity of the raw CRC fold over pointwise xor of equal-length inputs. -/
theorem crcFold_xor (l₁ l₂ : List Nat) (h : l₁.length = l₂.length) (a b : Nat) :
    (List.zipWith (· ^^^ ·) l₁ l₂).foldl crcByteStep (a ^^^ b) =
      l₁.foldl crcByteStep a ^^^ l₂.foldl crcByteStep b := by
  induction l₁ generalizing l₂ a b with
  | nil =>
    match l₂ with
    | [] => simp
    | _ :: _ => simp at h
  | cons x l₁ ih =>
    match l₂ with
    | [] => simp at h
    | y :: l₂ =>
      simp only [List.zipWith_cons_cons, List.foldl_cons]
      rw [crcByteStep_xor]
      exact ih l₂ (by simpa using h) _ _

theorem oneAt_length (n i v : Nat) : (oneAt n i v).length = n := by
  simp [oneAt]

theorem zipWith_xor_replicate_zero (l : List Nat) :
    List.zipWith (· ^^^ ·) l (List.replicate l.length 0) = l := by
  induction l with
  | nil => simp
  | cons b l ihl => simp [List.replicate_succ, ihl]

theorem zipWith_xor_set (l : List Nat) (i v : Nat) (hi : i < l.length) :
    List.zipWith (· ^^^ ·) l (oneAt l.length i v) = l.set i (l.getD i 0 ^^^ v) := by
  induction l generalizing i with
  | nil => simp at hi
  | cons a l ih =>
    match i with
    | 0 =>
      simp only [oneAt, List.length_cons, List.replicate_succ, List.set_cons_zero,
        List.zipWith_cons_cons, List.getD_cons_zero]
      exact congrArg _ (zipWith_xor_replicate_zero l)
    | i + 1 =>
      have hi' : i < l.length := by simpa using hi
      simp only [oneAt, List.length_cons, List.replicate_succ, List.set_cons_succ,
        List.zipWith_cons_cons, Nat.xor_zero, List.getD_cons_succ]
      exact congrArg _ (by simpa [oneAt] using ih i hi')

theorem crcStep_zero : crcStep 0 = 0 := by decide

theorem crcByteStep_zero_zero : crcByteStep 0 0 = 0 := by decide

theorem crcStep_ne_zero {c : Nat} (h : c ≠ 0) (h32 : c < 2 ^ 32) : crcStep c ≠ 0 := by
  unfold crcStep
  split
  · intro hx
    have : c >>> 1 = crcPoly := by
      have := Nat.xor_eq_zero.mp hx
      exact this
    have hlt : c >>> 1 < 2 ^ 31 := by
      simp only [Nat.shiftRight_one]
      omega
    rw [this] at hlt
    norm_num [crcPoly] at hlt
  · rename_i he
    simp only [Nat.shiftRight_one]
    omega

theorem crcStep_iter_ne_zero {c : Nat} (n : Nat) (h : c ≠ 0) (h32 : c < 2 ^ 32) :
    crcStep^[n] c ≠ 0 := by
  induction n generalizing c with
  | zero => simpa using h
  | succ n ih =>
    rw [Function.iterate_succ_apply]
    exact ih (crcStep_ne_zero h h32) (crcStep_lt h32)

theorem crcFold_zeros_zero (k : Nat) : (List.replicate k 0).foldl crcByteStep 0 = 0 := by
  induction k with
  | zero => simp
  | succ k ih => simpa [List.replicate_succ, crcByteStep_zero_zero] using ih

theorem crcFold_zeros_ne_zero {c : Nat} (k : Nat) (h : c ≠ 0) (h32 : c < 2 ^ 32) :
    (List.replicate k 0).foldl crcByteStep c ≠ 0 := by
  induction k generalizing c with
  | zero => simpa using h
  | succ k ih =>
    simp only [List.replicate_succ, List.foldl_cons]
    have h1 : crcByteStep c 0 ≠ 0 := by
      unfold crcByteStep
      rw [Nat.xor_zero]
      exact crcStep_iter_ne_zero 8 h h32
    have h2 : crcByteStep c 0 < 2 ^ 32 := by
      unfold crcByteStep
      rw [Nat.xor_zero]
      exact crcStep_iter_lt 8 h32
    exact ih h1 h2

theorem crcFold_oneAt_ne_zero {v : Nat} (n i : Nat) (hi : i < n) (hv : v ≠ 0)
    (h32 : v < 2 ^ 32) : (oneAt n i v).foldl crcByteStep 0 ≠ 0 := by
  induction i generalizing n with
  | zero =>
    match n, hi with
    | n + 1, _ =>
      simp only [oneAt, List.replicate_succ, List.set_cons_zero, List.foldl_cons]
      have hbv : crcByteStep 0 v ≠ 0 := by
        unfold crcByteStep
        rw [Nat.zero_xor]
        exact crcStep_iter_ne_zero 8 hv h32
      have hbv32 : crcByteStep 0 v < 2 ^ 32 := by
        unfold crcByteStep
        rw [Nat.zero_xor]
        exact crcStep_iter_lt 8 h32
      exact crcFold_zeros_ne_zero n hbv hbv32
  | succ i ih =>
    match n, hi with
    | n + 1, hi =>
      simp only [oneAt, List.replicate_succ, List.set_cons_succ, List.foldl_cons,
        crcByteStep_zero_zero]
      exact ih n (by omega)

/-- CRC-32 separates any two byte lists that differ by a single in-place xor. -/
theorem crc32_set_ne (l : List Nat) (i v : Nat) (hi : i < l.length) (hv : v ≠ 0)
    (h32 : v < 2 ^ 32) : crc32 (l.set i (l.getD i 0 ^^^ v)) ≠ crc32 l := by
  have hset : l.set i (l.getD i 0 ^^^ v) = List.zipWith (· ^^^ ·) l (oneAt l.length i v) :=
    (zipWith_xor_set l i v hi).symm
  rw [hset]
  unfold crc32
  intro hcontra
  have hx : (List.zipWith (· ^^^ ·) l (oneAt l.length i v)).foldl crcByteStep 0xFFFFFFFF =
      l.foldl crcByteStep 0xFFFFFFFF := by
    have h1 := congrArg (· ^^^ 0xFFFFFFFF) hcontra
    simpa [Nat.xor_assoc, Nat.xor_self, Nat.xor_zero] using h1
  have hlin : (List.zipWith (· ^^^ ·) l (oneAt l.length i v)).foldl crcByteStep
      (0xFFFFFFFF ^^^ 0) =
      l.foldl crcByteStep 0xFFFFFFFF ^^^ (oneAt l.length i v).foldl crcByteStep 0 :=
    crcFold_xor l (oneAt l.length i v) (by simp [oneAt_length]) 0xFFFFFFFF 0
  rw [Nat.xor_zero] at hlin
  rw [hlin] at hx
  have hzero : (oneAt l.length i v).foldl crcByteStep 0 = 0 := by
    have h2 := congrArg (fun t => l.foldl crcByteStep 0xFFFFFFFF ^^^ t) hx.symm
    simp only [xor_cancel_left, Nat.xor_self] at h2
    exact h2.symm
  exact crcFold_oneAt_ne_zero l.length i hi hv h32 hzero

theorem utf16Decode_cons (u : Nat) (rest : List Nat) :
    utf16Decode (u :: rest) =
      if u < 0xD800 ∨ 0xE000 ≤ u then (utf16Decode rest).map (u :: ·)
      else if u < 0xDC00 then
        match rest with
        | u2 :: rest2 =>
          if 0xDC00 ≤ u2 ∧ u2 < 0xE000 then
            (utf16Decode rest2).map ((0x10000 + (u - 0xD800) * 0x400 + (u2 - 0xDC00)) :: ·)
          else none
        | [] => none
      else none := by
  rw [utf16Decode.eq_def]

theorem utf16Decode_enc (v : Nat) (hv : isScalar v) (rest : List Nat) :
    utf16Decode (utf16Enc v ++ rest) = (utf16Decode rest).map (v :: ·) := by
  obtain ⟨h1, h2⟩ := hv
  by_cases hsmall : v < 0x10000
  · have he : utf16Enc v ++ rest = v :: rest := by simp [utf16Enc, hsmall]
    rw [he, utf16Decode_cons, if_pos h2]
  · have he : utf16Enc v ++ rest =
        (0xD800 + (v - 0x10000) / 0x400) :: (0xDC00 + (v - 0x10000) % 0x400) :: rest := by
      simp [utf16Enc, hsmall]
    rw [he, utf16Decode_cons,
      if_neg (show ¬(0xD800 + (v - 0x10000) / 0x400 < 0xD800 ∨
        0xE000 ≤ 0xD800 + (v - 0x10000) / 0x400) by omega),
      if_pos (show 0xD800 + (v - 0x10000) / 0x400 < 0xDC00 by omega)]
    simp only []
    rw [if_pos (show 0xDC00 ≤ 0xDC00 + (v - 0x10000) % 0x400 ∧
        0xDC00 + (v - 0x10000) % 0x400 < 0xE000 by omega)]
    have hval : 0x10000 + (0xD800 + (v - 0x10000) / 0x400 - 0xD800) * 0x400 +
        (0xDC00 + (v - 0x10000) % 0x400 - 0xDC00) = v := by omega
    rw [hval]

theorem utf16Decode_encList (s : List Nat) (hs : ∀ v ∈ s, isScalar v) (rest : List Nat) :
    utf16Decode (s.flatMap utf16Enc ++ rest) = (utf16Decode rest).map (s ++ ·) := by
  induction s with
  | nil =>
    simp only [List.flatMap_nil, List.nil_append]
    cases utf16Decode rest <;> simp
  | cons v s ih =>
    simp only [List.flatMap_cons, List.append_assoc]
    rw [utf16Decode_enc v (hs v (List.mem_cons_self _ _)) _,
      ih (fun w hw => hs w (List.mem_cons_of_mem _ hw))]
    cases utf16Decode rest <;> simp

theorem u16Vals_encList (us : List Nat) (hus : ∀ u ∈ us, u < 2 ^ 16) (rest : List Nat) :
    u16Vals us.length (us.flatMap (le 2) ++ rest) = us := by
  induction us with
  | nil => simp [u16Vals]
  | cons u us ih =>
    have hu : u < 2 ^ (8 * 2) := by
      have := hus u (List.mem_cons_self _ _)
      norm_num
      omega
    have hle : le 2 u ++ (us.flatMap (le 2) ++ rest) =
        u % 256 :: u / 256 % 256 :: (us.flatMap (le 2) ++ rest) := by
      simp [le]
    simp only [List.length_cons, List.flatMap_cons, List.append_assoc, u16Vals, hle]
    refine congrArg₂ List.cons ?_ ?_
    · show u % 256 + 256 * (u / 256 % 256 + 256 * 0) = u
      norm_num at hu
      omega
    · show u16Vals us.length (us.flatMap (le 2) ++ rest) = us
      exact ih (fun w hw => hus w (List.mem_cons_of_mem _ hw))

theorem flatMap_le2_length (us : List Nat) : (us.flatMap (le 2)).length = 2 * us.length := by
  induction us with
  | nil => simp
  | cons u us ih =>
    have hlu : le 2 u = [u % 256, u / 256 % 256] := by simp [le]
    simp only [List.flatMap_cons, hlu, List.length_append, ih, List.length_cons,
      List.length_nil]
    omega

theorem u32OfI32_lt (s : Int) : u32OfI32 s < 2 ^ 32 := by
  unfold u32OfI32
  omega

/-- Encoding a byte count `size < 2^31` as a negated `i32` and reading it
back through `-(value as i32) as usize` recovers `size`. -/
theorem sizeField_roundtrip (size : Nat) (h : size < 2 ^ 31) :
    i32AsU64 (wrapI32 (- wrapI32 (u32OfI32 (wrapI32 (- wrapI32 (size : Int)))))) = size := by
  unfold i32AsU64 wrapI32 u32OfI32
  omega

theorem utf16Enc_ne_nil (v : Nat) : utf16Enc v ≠ [] := by
  unfold utf16Enc
  split <;> simp

theorem flatMap_utf16Enc_eq_nil {s : List Nat} (h : s.flatMap utf16Enc = []) : s = [] := by
  match s with
  | [] => rfl
  | v :: s' =>
    simp only [List.flatMap_cons, List.append_eq_nil] at h
    exact absurd h.1 (utf16Enc_ne_nil v)

theorem utf16Enc_lt (v : Nat) (hv : isScalar v) : ∀ u ∈ utf16Enc v, u < 2 ^ 16 := by
  obtain ⟨h1, h2⟩ := hv
  intro u hu
  unfold utf16Enc at hu
  split at hu <;> simp at hu <;> omega

theorem le_length (k n : Nat) : (le k n).length = k := by
  induction k generalizing n with
  | zero => simp [le]
  | succ k ih => simp [le, ih]

theorem decodeStringsGo_cons (acc : List (List Nat)) (b : Nat) (rest : List Nat) :
    decodeStringsGo acc (b :: rest) =
      if b = 0xfe then
        match handleEntry rest with
        | .fail msg => .err msg
        | .panicked => .panicked
        | .push s consumed => decodeStringsGo (acc ++ [s]) ((rest.drop 4).drop consumed)
        | .skip => decodeStringsGo acc (rest.drop 4)
      else if b = 0xff then
        if rest.isEmpty then .ok acc else .err "Invalid file rec string header length"
      else .err "Invalid file rec string header" := by
  rw [decodeStringsGo.eq_def]

theorem le4_cons (n : Nat) (x : List Nat) :
    le 4 n ++ x = n % 256 :: n / 256 % 256 :: n / 256 / 256 % 256 ::
      n / 256 / 256 / 256 % 256 :: x := by
  simp [le]

theorem fieldVal_le4 (n : Nat) (h : n < 2 ^ 32) :
    ((n % 256 : Nat) : Int) + 256 * ((n / 256 % 256 : Nat) : Int) +
      65536 * ((n / 256 / 256 % 256 : Nat) : Int) +
      16777216 * ((n / 256 / 256 / 256 % 256 : Nat) : Int) = (n : Int) := by
  push_cast
  omega

theorem handleEntry_cons4 (b0 b1 b2 b3 : Nat) (r2 : List Nat) :
    handleEntry (b0 :: b1 :: b2 :: b3 :: r2) =
      (if 0 < i32AsU64 (wrapI32 (- wrapI32 (b0 + 256 * b1 + 65536 * b2 + 16777216 * b3))) then
        if i32AsU64 (wrapI32 (- wrapI32 (b0 + 256 * b1 + 65536 * b2 + 16777216 * b3))) % 2 ≠ 0 then
          .panicked
        else if 2 ^ 63 ≤ i32AsU64 (wrapI32 (- wrapI32 (b0 + 256 * b1 + 65536 * b2 + 16777216 * b3))) then
          .panicked
        else if r2.length <
            2 * (i32AsU64 (wrapI32 (- wrapI32 (b0 + 256 * b1 + 65536 * b2 + 16777216 * b3))) / 2) then
          .fail "Failed to parse file rec data string"
        else
          match utf16Decode (u16Vals
              (i32AsU64 (wrapI32 (- wrapI32 (b0 + 256 * b1 + 65536 * b2 + 16777216 * b3))) / 2) r2) with
          | none => .fail "Failed to parse file rec data string"
          | some s => .push s
              (2 * (i32AsU64 (wrapI32 (- wrapI32 (b0 + 256 * b1 + 65536 * b2 + 16777216 * b3))) / 2))
      else .skip) := by
  rw [handleEntry.eq_def]

/-- `handleEntry` on one entry produced by `encode_strings`: a skip for the
empty string, a push of the decoded string otherwise. -/
theorem handleEntry_enc (s : List Nat) (hs : ∀ v ∈ s, isScalar v)
    (hlen : (s.flatMap utf16Enc).length * 2 < 2 ^ 31) (tail : List Nat) :
    handleEntry (le 4 (u32OfI32 (wrapI32 (- wrapI32 (((s.flatMap utf16Enc).length * 2 : Nat) : Int)))) ++
        ((s.flatMap utf16Enc).flatMap (le 2) ++ tail)) =
      if s.flatMap utf16Enc = [] then .skip
      else .push s (2 * (s.flatMap utf16Enc).length) := by
  set stored := u32OfI32 (wrapI32 (- wrapI32 (((s.flatMap utf16Enc).length * 2 : Nat) : Int))) with hstored
  rw [le4_cons, handleEntry_cons4]
  rw [fieldVal_le4 stored (by rw [hstored]; exact u32OfI32_lt _)]
  rw [hstored, sizeField_roundtrip _ hlen]
  by_cases hnil : s.flatMap utf16Enc = []
  · rw [if_pos hnil, hnil]
    norm_num
  · rw [if_neg hnil]
    have hpos : 0 < (s.flatMap utf16Enc).length := List.length_pos.mpr hnil
    rw [if_pos (by omega), if_neg (by omega), if_neg (by omega)]
    have hdiv : (s.flatMap utf16Enc).length * 2 / 2 = (s.flatMap utf16Enc).length := by omega
    rw [hdiv]
    have hlenb : ((s.flatMap utf16Enc).flatMap (le 2) ++ tail).length =
        2 * (s.flatMap utf16Enc).length + tail.length := by
      rw [List.length_append, flatMap_le2_length]
    rw [if_neg (by omega)]
    have hu16 : ∀ u ∈ s.flatMap utf16Enc, u < 2 ^ 16 := by
      intro u hu
      obtain ⟨v, hv, hu2⟩ := List.mem_flatMap.mp hu
      exact utf16Enc_lt v (hs v hv) u hu2
    rw [u16Vals_encList (s.flatMap utf16Enc) hu16 tail]
    have hdec : utf16Decode (s.flatMap utf16Enc) = some s := by
      have := utf16Decode_encList s hs []
      simpa [utf16Decode] using this
    rw [hdec]

/-- The decode loop over an `encode_strings` output appends exactly the
non-empty strings, in order. -/
theorem decodeStringsGo_encList (xs : List (List Nat)) (acc : List (List Nat))
    (hval : ∀ s ∈ xs, ∀ v ∈ s, isScalar v)
    (hlen : ∀ s ∈ xs, (s.flatMap utf16Enc).length * 2 < 2 ^ 31) :
    decodeStringsGo acc (xs.flatMap encodeEntry ++ [0xff]) =
      .ok (acc ++ xs.filter (· ≠ [])) := by
  induction xs generalizing acc with
  | nil =>
    simp only [List.flatMap_nil, List.nil_append, List.filter_nil, List.append_nil]
    rw [decodeStringsGo_cons]
    norm_num
  | cons s xs ih =>
    have hs : ∀ v ∈ s, isScalar v := hval s (List.mem_cons_self _ _)
    have hlens : (s.flatMap utf16Enc).length * 2 < 2 ^ 31 := hlen s (List.mem_cons_self _ _)
    have hval' : ∀ t ∈ xs, ∀ v ∈ t, isScalar v :=
      fun t ht => hval t (List.mem_cons_of_mem _ ht)
    have hlen' : ∀ t ∈ xs, (t.flatMap utf16Enc).length * 2 < 2 ^ 31 :=
      fun t ht => hlen t (List.mem_cons_of_mem _ ht)
    have hsne_iff : s.flatMap utf16Enc = [] ↔ s = [] :=
      ⟨flatMap_utf16Enc_eq_nil, fun h => by simp [h]⟩
    have hdrop4 : ∀ C : List Nat,
        (le 4 (u32OfI32 (wrapI32 (- wrapI32 (((s.flatMap utf16Enc).length * 2 : Nat) : Int)))) ++
          C).drop 4 = C := by
      intro C
      rw [show (4:Nat) = (le 4 (u32OfI32 (wrapI32 (- wrapI32
        (((s.flatMap utf16Enc).length * 2 : Nat) : Int))))).length from (le_length _ _).symm]
      exact List.drop_left _ _
    have hdropData : ∀ C : List Nat,
        ((s.flatMap utf16Enc).flatMap (le 2) ++ C).drop (2 * (s.flatMap utf16Enc).length) =
          C := by
      intro C
      rw [show 2 * (s.flatMap utf16Enc).length =
        ((s.flatMap utf16Enc).flatMap (le 2)).length from (flatMap_le2_length _).symm]
      exact List.drop_left _ _
    simp only [List.flatMap_cons, encodeEntry, List.append_assoc, List.cons_append]
    rw [decodeStringsGo_cons, if_pos rfl]
    rw [handleEntry_enc s hs hlens (xs.flatMap encodeEntry ++ [0xff])]
    by_cases hnil : s.flatMap utf16Enc = []
    · rw [if_pos hnil]
      simp only []
      rw [hdrop4, hnil]
      simp only [List.flatMap_nil, List.nil_append]
      rw [ih acc hval' hlen']
      rw [hsne_iff.mp hnil]
      simp
    · rw [if_neg hnil]
      simp only []
      rw [hdrop4, hdropData]
      rw [ih (acc ++ [s]) hval' hlen']
      have hsne : s ≠ [] := fun hcontra => hnil (hsne_iff.mpr hcontra)
      simp [List.filter_cons, hsne]

/-- `decode_strings ∘ encode_strings` keeps exactly the non-empty strings. -/
theorem decode_encode_strings (xs : List (List Nat))
    (hval : ∀ s ∈ xs, ∀ v ∈ s, isScalar v)
    (hlen : ∀ s ∈ xs, (s.flatMap utf16Enc).length * 2 < 2 ^ 31) :
    decode_strings (encode_strings xs) = .ok (xs.filter (· ≠ [])) := by
  unfold decode_strings encode_strings
  have := decodeStringsGo_encList xs [] hval hlen
  simpa using this

/-- Auxiliary: extending `prior` by a record that contributes no new seen
path preserves the seen-set invariant. -/
theorem seenInv_snoc (seen : List (List Nat)) (prior : List FileRec) (rec : FileRec)
    (hinv : ∀ p, p ∈ seen ↔ ∃ r ∈ prior, isDeleteTyp r.typ ∧ r.get_paths = .ok [p])
    (hrec : ∀ p, isDeleteTyp rec.typ → rec.get_paths = .ok [p] → p ∈ seen) :
    ∀ p, p ∈ seen ↔ ∃ r ∈ prior ++ [rec], isDeleteTyp r.typ ∧ r.get_paths = .ok [p] := by
  intro p
  constructor
  · intro hp
    obtain ⟨r, hr, h1, h2⟩ := (hinv p).mp hp
    exact ⟨r, List.mem_append_left _ hr, h1, h2⟩
  · rintro ⟨r, hr, h1, h2⟩
    rcases List.mem_append.mp hr with hr | hr
    · exact (hinv p).mpr ⟨r, hr, h1, h2⟩
    · simp only [List.mem_singleton] at hr
      subst hr
      exact hrec p h1 h2

/-- Auxiliary: inserting the newly seen path of a kept delete record
restores the seen-set invariant. -/
theorem seenInv_insert (seen : List (List Nat)) (prior : List FileRec) (rec : FileRec)
    (p0 : List Nat)
    (hinv : ∀ p, p ∈ seen ↔ ∃ r ∈ prior, isDeleteTyp r.typ ∧ r.get_paths = .ok [p])
    (hdel : isDeleteTyp rec.typ) (hgp : rec.get_paths = .ok [p0]) :
    ∀ p, p ∈ (p0 :: seen) ↔
      ∃ r ∈ prior ++ [rec], isDeleteTyp r.typ ∧ r.get_paths = .ok [p] := by
  intro p
  simp only [List.mem_cons]
  constructor
  · rintro (hp | hp)
    · subst hp
      exact ⟨rec, List.mem_append_right _ (by simp), hdel, hgp⟩
    · obtain ⟨r, hr, h1, h2⟩ := (hinv p).mp hp
      exact ⟨r, List.mem_append_left _ hr, h1, h2⟩
  · rintro ⟨r, hr, h1, h2⟩
    rcases List.mem_append.mp hr with hr | hr
    · exact Or.inr ((hinv p).mpr ⟨r, hr, h1, h2⟩)
    · simp only [List.mem_singleton] at hr
      subst hr
      rw [hgp] at h2
      simp at h2
      exact Or.inl h2.symm

/-- The dedup filter loop equals the spec-side first-occurrence filter, for
inputs none of whose records panic while decoding, whenever `seen` holds
exactly the single paths of the delete-typed records already processed. -/
theorem dedupGo_spec (recs : List FileRec) (seen : List (List Nat)) (prior : List FileRec)
    (hnp : ∀ r ∈ recs, r.get_paths ≠ .panicked)
    (hinv : ∀ p, p ∈ seen ↔ ∃ r ∈ prior, isDeleteTyp r.typ ∧ r.get_paths = .ok [p]) :
    dedupGo seen recs = .ok (dedupSpec prior recs) := by
  induction recs generalizing seen prior with
  | nil => simp [dedupGo, dedupSpec]
  | cons rec rest ih =>
    have hnp2 : ∀ r ∈ rest, r.get_paths ≠ .panicked :=
      fun r hr => hnp r (List.mem_cons_of_mem _ hr)
    by_cases hdel : isDeleteTyp rec.typ
    · cases hgp : rec.get_paths with
      | panicked => exact absurd hgp (hnp rec (List.mem_cons_self _ _))
      | err e =>
        have hstep : dedupStep seen rec = .drop := by
          simp [dedupStep, hdel, hgp]
        have hkeep : keepsRec prior rec = false := by
          simp [keepsRec, hdel, hgp]
        have hinv2 := seenInv_snoc seen prior rec hinv
          (fun p _ h2 => absurd (hgp ▸ h2) (by simp))
        simp only [dedupGo, hstep]
        rw [ih seen (prior ++ [rec]) hnp2 hinv2]
        simp [dedupSpec, hkeep]
      | ok paths =>
        by_cases hlen : paths.length = 1
        · obtain ⟨p0, hp0⟩ := List.length_eq_one.mp hlen
          subst hp0
          by_cases hseen : p0 ∈ seen
          · have hstep : dedupStep seen rec = .drop := by
              simp [dedupStep, hdel, hgp, hseen]
            have hkeep : keepsRec prior rec = false := by
              obtain ⟨r, hr, h1, h2⟩ := (hinv p0).mp hseen
              simp [keepsRec, hdel, hgp]
              exact ⟨r, hr, h1, h2⟩
            have hinv2 := seenInv_snoc seen prior rec hinv
              (fun p _ h2 => by
                rw [hgp] at h2
                simp at h2
                exact h2 ▸ hseen)
            simp only [dedupGo, hstep]
            rw [ih seen (prior ++ [rec]) hnp2 hinv2]
            simp [dedupSpec, hkeep]
          · have hstep : dedupStep seen rec = .keep (p0 :: seen) := by
              simp [dedupStep, hdel, hgp, hseen]
            have hkeep : keepsRec prior rec = true := by
              simp [keepsRec, hdel, hgp]
              intro x hx h1 hcontra
              exact hseen ((hinv p0).mpr ⟨x, hx, h1, hcontra⟩)
            have hinv2 := seenInv_insert seen prior rec p0 hinv hdel hgp
            simp only [dedupGo, hstep]
            rw [ih (p0 :: seen) (prior ++ [rec]) hnp2 hinv2]
            simp [dedupSpec, hkeep]
        · have hstep : dedupStep seen rec = .keep seen := by
            simp [dedupStep, hdel, hgp, hlen]
          have hkeep : keepsRec prior rec = true := by
            simp [keepsRec, hdel, hgp, hlen]
          have hinv2 := seenInv_snoc seen prior rec hinv
            (fun p _ h2 => by
              rw [hgp] at h2
              simp at h2
              rw [h2] at hlen
              simp at hlen)
          simp only [dedupGo, hstep]
          rw [ih seen (prior ++ [rec]) hnp2 hinv2]
          simp [dedupSpec, hkeep]
    · have hstep : dedupStep seen rec = .keep seen := by
        simp [dedupStep, hdel]
      have hkeep : keepsRec prior rec = true := by
        simp [keepsRec, hdel]
      have hinv2 := seenInv_snoc seen prior rec hinv
        (fun p h1 _ => absurd h1 (by simpa using hdel))
      simp only [dedupGo, hstep]
      rw [ih seen (prior ++ [rec]) hnp2 hinv2]
      simp [dedupSpec, hkeep]

/-! ## Theorems -/

theorem fsGet_remove_self (fs : Fs) (p : String) : fsGet (fsRemove fs p) p = none := by
  unfold fsGet fsRemove
  induction fs with
  | nil => simp
  | cons e fs ih =>
    simp only [List.filter_cons]
    by_cases he : e.1 = p
    · rw [if_neg (by simp [he])]
      exact ih
    · rw [if_pos (by simp [he])]
      rw [List.find?_cons_of_neg _ (by simp [he])]
      exact ih

theorem fsGet_remove_other (fs : Fs) (p q : String) (h : q ≠ p) :
    fsGet (fsRemove fs p) q = fsGet fs q := by
  unfold fsGet fsRemove
  induction fs with
  | nil => simp
  | cons e fs ih =>
    simp only [List.filter_cons]
    by_cases he : e.1 = p
    · have heq : ¬ (e.1 = q) := by rw [he]; exact fun hc => h hc.symm
      rw [if_neg (by simp [he])]
      rw [List.find?_cons_of_neg _ (by simp [heq])]
      exact ih
    · rw [if_pos (by simp [he])]
      by_cases heq : e.1 = q
      · rw [List.find?_cons_of_pos _ (by simp [heq]), List.find?_cons_of_pos _ (by simp [heq])]
      · rw [List.find?_cons_of_neg _ (by simp [heq]), List.find?_cons_of_neg _ (by simp [heq])]
        exact ih

theorem fsGet_set_self (fs : Fs) (p : String) (v : String) :
    fsGet (fsSet fs p v) p = some v := by
  unfold fsSet fsGet
  simp [List.find?_cons]

theorem fsGet_set_other (fs : Fs) (p q : String) (v : String) (h : q ≠ p) :
    fsGet (fsSet fs p v) q = fsGet fs q := by
  unfold fsSet fsGet
  rw [List.find?_cons_of_neg _ (by simpa using Ne.symm h)]
  exact fsGet_remove_other fs p q h

/-- C1. `perform_three_way_rename` postconditions, for distinct paths:
(1) if current and staged both exist, the call succeeds, the current path
holds the staged file's original contents, the rollback path holds the
current file's original contents, and the staged path is gone;
(2) if the current file is absent and the staged file exists, the call
succeeds, the current path holds the staged contents, and the rollback
path is untouched (in particular not created);
(3) if the staged file is absent, the call succeeds and changes nothing. -/
theorem three_way_rename_postconditions (fs : Fs) (C O N : String)
    (hCO : C ≠ O) (hCN : C ≠ N) (hON : O ≠ N) :
    (fsExists fs C = true → fsExists fs N = true →
      ∃ fs2, perform_three_way_rename fs C O N = .ok fs2 ∧
        fsGet fs2 C = fsGet fs N ∧ fsGet fs2 O = fsGet fs C ∧ fsExists fs2 N = false) ∧
    (fsExists fs C = false → fsExists fs N = true →
      ∃ fs2, perform_three_way_rename fs C O N = .ok fs2 ∧
        fsGet fs2 C = fsGet fs N ∧ fsGet fs2 O = fsGet fs O) ∧
    (fsExists fs N = false → perform_three_way_rename fs C O N = .ok fs) := by
  refine ⟨?_, ?_, ?_⟩
  · intro hC hN
    unfold fsExists at hC hN
    obtain ⟨vC, hvC⟩ := Option.isSome_iff_exists.mp hC
    obtain ⟨vN, hvN⟩ := Option.isSome_iff_exists.mp hN
    have hN1 : fsGet (fsSet (fsRemove fs C) O vC) N = some vN := by
      rw [fsGet_set_other _ _ _ _ (Ne.symm hON), fsGet_remove_other _ _ _ (Ne.symm hCN), hvN]
    have hmain : perform_three_way_rename fs C O N =
        .ok (fsSet (fsRemove (fsSet (fsRemove fs C) O vC) N) C vN) := by
      unfold perform_three_way_rename
      rw [if_pos ⟨by unfold fsExists; simp [hvN], by unfold fsExists; simp [hvC]⟩]
      rw [show fsRename fs C O = some (fsSet (fsRemove fs C) O vC) by
        unfold fsRename; rw [hvC]]
      show threeWayStep2 (fsSet (fsRemove fs C) O vC) C O N = _
      unfold threeWayStep2
      rw [show fsRename (fsSet (fsRemove fs C) O vC) N C =
          some (fsSet (fsRemove (fsSet (fsRemove fs C) O vC) N) C vN) by
        unfold fsRename; rw [hN1]]
    refine ⟨_, hmain, ?_, ?_, ?_⟩
    · rw [fsGet_set_self, hvN]
    · rw [fsGet_set_other _ _ _ _ hCO.symm, fsGet_remove_other _ _ _ hON,
        fsGet_set_self, hvC]
    · unfold fsExists
      rw [fsGet_set_other _ _ _ _ hCN.symm, fsGet_remove_self]
      rfl
  · intro hC hN
    unfold fsExists at hC hN
    obtain ⟨vN, hvN⟩ := Option.isSome_iff_exists.mp hN
    have hmain : perform_three_way_rename fs C O N =
        .ok (fsSet (fsRemove fs N) C vN) := by
      unfold perform_three_way_rename
      rw [if_neg (by unfold fsExists; rw [hC]; simp)]
      rw [if_neg (by unfold fsExists; rw [hvN]; simp)]
      unfold threeWayStep2
      rw [show fsRename fs N C = some (fsSet (fsRemove fs N) C vN) by
        unfold fsRename; rw [hvN]]
    refine ⟨_, hmain, ?_, ?_⟩
    · rw [fsGet_set_self, hvN]
    · rw [fsGet_set_other _ _ _ _ hCO.symm, fsGet_remove_other _ _ _ hON]
  · intro hN
    unfold perform_three_way_rename
    rw [if_neg (by rw [hN]; simp)]
    rw [if_pos (by rw [hN]; simp)]

/-- Witness for C1 at a concrete two-file filesystem. -/
theorem three_way_rename_postconditions_witness :
    (fsExists [("C:\\app\\Code.exe", "current bytes"), ("C:\\app\\new_Code.exe", "staged bytes")]
        "C:\\app\\Code.exe" = true →
      fsExists [("C:\\app\\Code.exe", "current bytes"), ("C:\\app\\new_Code.exe", "staged bytes")]
        "C:\\app\\new_Code.exe" = true →
      ∃ fs2, perform_three_way_rename
          [("C:\\app\\Code.exe", "current bytes"), ("C:\\app\\new_Code.exe", "staged bytes")]
          "C:\\app\\Code.exe" "C:\\app\\old_Code.exe" "C:\\app\\new_Code.exe" = .ok fs2 ∧
        fsGet fs2 "C:\\app\\Code.exe" =
          fsGet [("C:\\app\\Code.exe", "current bytes"), ("C:\\app\\new_Code.exe", "staged bytes")]
            "C:\\app\\new_Code.exe" ∧
        fsGet fs2 "C:\\app\\old_Code.exe" =
          fsGet [("C:\\app\\Code.exe", "current bytes"), ("C:\\app\\new_Code.exe", "staged bytes")]
            "C:\\app\\Code.exe" ∧
        fsExists fs2 "C:\\app\\new_Code.exe" = false) ∧
    (fsExists [("C:\\app\\Code.exe", "current bytes"), ("C:\\app\\new_Code.exe", "staged bytes")]
        "C:\\app\\Code.exe" = false →
      fsExists [("C:\\app\\Code.exe", "current bytes"), ("C:\\app\\new_Code.exe", "staged bytes")]
        "C:\\app\\new_Code.exe" = true →
      ∃ fs2, perform_three_way_rename
          [("C:\\app\\Code.exe", "current bytes"), ("C:\\app\\new_Code.exe", "staged bytes")]
          "C:\\app\\Code.exe" "C:\\app\\old_Code.exe" "C:\\app\\new_Code.exe" = .ok fs2 ∧
        fsGet fs2 "C:\\app\\Code.exe" =
          fsGet [("C:\\app\\Code.exe", "current bytes"), ("C:\\app\\new_Code.exe", "staged bytes")]
            "C:\\app\\new_Code.exe" ∧
        fsGet fs2 "C:\\app\\old_Code.exe" =
          fsGet [("C:\\app\\Code.exe", "current bytes"), ("C:\\app\\new_Code.exe", "staged bytes")]
            "C:\\app\\old_Code.exe") ∧
    (fsExists [("C:\\app\\Code.exe", "current bytes"), ("C:\\app\\new_Code.exe", "staged bytes")]
        "C:\\app\\new_Code.exe" = false →
      perform_three_way_rename
          [("C:\\app\\Code.exe", "current bytes"), ("C:\\app\\new_Code.exe", "staged bytes")]
          "C:\\app\\Code.exe" "C:\\app\\old_Code.exe" "C:\\app\\new_Code.exe" =
        .ok [("C:\\app\\Code.exe", "current bytes"), ("C:\\app\\new_Code.exe", "staged bytes")]) :=
  three_way_rename_postconditions
    [("C:\\app\\Code.exe", "current bytes"), ("C:\\app\\new_Code.exe", "staged bytes")]
    "C:\\app\\Code.exe" "C:\\app\\old_Code.exe" "C:\\app\\new_Code.exe"
    (by decide) (by decide) (by decide)

/-- C2 counterexample: on a record whose 16-bit discriminant `0x02` is not
one of the 17 recognized values (with a readable empty payload),
`FileRec::from_reader` panics — it does not return a parse error. -/
theorem filerec_unknown_discriminant_panics :
    FileRec.from_reader [0x02, 0x00, 0x00, 0x00, 0x00, 0x00, 0x00, 0x00, 0x00, 0x00] =
      .panicked := by
  decide

/-- C2 (amended): decoding a record returns the oversize error whenever the
declared payload length exceeds 128 MB (`0x8000000` bytes); but when the
length is within bounds and the payload is readable, an unrecognized
discriminant makes the decoder panic (`UninstallRecTyp::from`'s catch-all
`panic!`), not return a parse error. -/
theorem filerec_from_reader_oversize_and_panic :
    (∀ (typ extra size : Nat) (rest : List Nat),
      typ < 2 ^ 16 → extra < 2 ^ 32 → size < 2 ^ 32 → size > 0x8000000 →
      FileRec.from_reader (le 2 typ ++ (le 4 extra ++ (le 4 size ++ rest))) =
        .err "File rec data size too large") ∧
    (∀ (typ extra size : Nat) (rest : List Nat),
      typ < 2 ^ 16 → extra < 2 ^ 32 → size < 2 ^ 32 → size ≤ 0x8000000 →
      size ≤ rest.length → typFrom typ = none →
      FileRec.from_reader (le 2 typ ++ (le 4 extra ++ (le 4 size ++ rest))) = .panicked) := by
  constructor
  · intro typ extra size rest h1 h2 h3 hbig
    unfold FileRec.from_reader
    rw [readLE_le typ (by norm_num; omega) _]
    simp only []
    rw [readLE_le extra (by norm_num; omega) _]
    simp only []
    rw [readLE_le size (by norm_num; omega) _]
    simp only []
    rw [if_pos hbig]
  · intro typ extra size rest h1 h2 h3 hsmall hrest htyp
    unfold FileRec.from_reader
    rw [readLE_le typ (by norm_num; omega) _]
    simp only []
    rw [readLE_le extra (by norm_num; omega) _]
    simp only []
    rw [readLE_le size (by norm_num; omega) _]
    simp only []
    rw [if_neg (by omega)]
    rw [show takeExact size rest = some (rest.take size, rest.drop size) by
      unfold takeExact; rw [if_pos hrest]]
    simp only []
    rw [htyp]

/-- Witness for C2's amended statement at concrete inputs. -/
theorem filerec_from_reader_oversize_and_panic_witness :
    FileRec.from_reader (le 2 0x82 ++ (le 4 0 ++ (le 4 0x8000001 ++ []))) =
      .err "File rec data size too large" ∧
    FileRec.from_reader (le 2 0x02 ++ (le 4 0 ++ (le 4 0 ++ []))) = .panicked :=
  ⟨filerec_from_reader_oversize_and_panic.1 0x82 0 0x8000001 []
      (by decide) (by decide) (by decide) (by decide),
    filerec_from_reader_oversize_and_panic.2 0x02 0 0 []
      (by decide) (by decide) (by decide) (by decide) (by decide) (by decide)⟩

/-- C10. The path-list decoder is not total: whenever a `0xFE` entry's
`i32` byte-count field, negated (with wrapping) and cast to `usize`, is an
odd number (hence positive), `decode_strings` hits the
`assert_eq!(size % 2, 0)` and panics instead of returning any error
value. -/
theorem decode_strings_odd_size_panics
    (b0 b1 b2 b3 : Nat) (rest : List Nat)
    (hodd : i32AsU64 (wrapI32 (- wrapI32 (b0 + 256 * b1 + 65536 * b2 + 16777216 * b3))) % 2 = 1) :
    decode_strings (0xfe :: b0 :: b1 :: b2 :: b3 :: rest) = .panicked := by
  unfold decode_strings
  rw [decodeStringsGo_cons, if_pos rfl, handleEntry_cons4]
  rw [if_pos (by omega), if_pos (by omega)]

/-- Witness for C10: the stored `i32` is `-3`, so the computed size is the
odd number 3. -/
theorem decode_strings_odd_size_panics_witness :
    decode_strings [0xfe, 0xfd, 0xff, 0xff, 0xff] = .panicked :=
  decode_strings_odd_size_panics 0xfd 0xff 0xff 0xff [] (by decide)

/-- C3. Decoding an encoded path list succeeds and returns exactly the
non-empty strings in order: for a sequence of non-empty strings the round
trip is the identity, and zero-length strings are dropped. (The byte-count
bound keeps each string's encoded size inside the `i32` the format stores;
scalar-validity is what Rust's `String` type guarantees.) -/
theorem decode_encode_paths_roundtrip (xs : List (List Nat))
    (hval : ∀ s ∈ xs, ∀ v ∈ s, isScalar v)
    (hlen : ∀ s ∈ xs, (s.flatMap utf16Enc).length * 2 < 2 ^ 31) :
    decode_strings (encode_strings xs) = .ok (xs.filter (· ≠ [])) ∧
    ((∀ s ∈ xs, s ≠ []) → decode_strings (encode_strings xs) = .ok xs) := by
  refine ⟨decode_encode_strings xs hval hlen, fun hne => ?_⟩
  rw [decode_encode_strings xs hval hlen]
  congr 1
  exact List.filter_eq_self.mpr (fun s hs => by simpa using hne s hs)

/-- Witness for C3: a list with an empty entry loses exactly that entry; a
list of non-empty strings round-trips identically. -/
theorem decode_encode_paths_roundtrip_witness :
    decode_strings (encode_strings [str "Hi", [], str "A"]) = .ok [str "Hi", str "A"] ∧
    decode_strings (encode_strings [str "Hello", str "World", str "Test"]) =
      .ok [str "Hello", str "World", str "Test"] := by
  constructor
  · have h := (decode_encode_paths_roundtrip [str "Hi", [], str "A"]
      (by decide) (by decide)).1
    rw [h]
    decide
  · exact (decode_encode_paths_roundtrip [str "Hello", str "World", str "Test"]
      (by decide) (by decide)).2 (by decide)

/-- Trailing separators do not change a path's normal form. -/
theorem dropTrailingSeps_snoc_sep (p : List Nat) :
    dropTrailingSeps (p ++ [92]) = dropTrailingSeps p := by
  simp [dropTrailingSeps, List.dropWhile_cons]

theorem stripPathFront_snoc_sep (fr p : List Nat) :
    stripPathFront (fr ++ [92]) p = stripPathFront fr p := by
  unfold stripPathFront
  rw [dropTrailingSeps_snoc_sep]

theorem parentPath_snoc_sep (p : List Nat) :
    parentPath (p ++ [92]) = parentPath p := by
  unfold parentPath
  rw [dropTrailingSeps_snoc_sep]

theorem rebaseOne_snoc_sep (u dst p : List Nat) :
    rebaseOne (u ++ [92]) dst p = rebaseOne u dst p := by
  unfold rebaseOne
  rw [stripPathFront_snoc_sep]

/-- A staging path given with a trailing separator rebases records exactly
as the same path without it. -/
theorem rebase_snoc_sep (rec : FileRec) (u : List Nat) :
    rec.rebase (u ++ [92]) = rec.rebase u := by
  unfold FileRec.rebase
  cases decode_strings rec.data with
  | panicked => rfl
  | err e => rfl
  | ok paths =>
    simp only [parentPath_snoc_sep]
    cases parentPath u with
    | none => rfl
    | some dst =>
      simp only []
      rw [List.map_congr_left (fun p _ => rebaseOne_snoc_sep u dst p)]

/-- C4 counterexample: a `DeleteFile` record whose payload fails to decode
makes `rebase` return an error for the whole record — the original string
is not carried through, contradicting the claim that rebase never fails a
whole DeleteDirOrFiles/DeleteFile record. -/
theorem rebase_propagates_decode_error :
    FileRec.rebase ⟨UninstallRecTyp.DeleteFile, 0, [0x00]⟩ (str "C:\\Code\\_") =
      .err "Invalid file rec string header" := by
  unfold FileRec.rebase decode_strings
  rw [decodeStringsGo_cons]
  decide

/-- C4 (amended). When the record's payload decodes to a path list and the
staging path has a parent, `rebase` succeeds, re-encoding each path rebased
by `rebaseOne`: a path the staging path is not a prefix of passes through
unchanged, a prefixed path has the prefix replaced by the parent via `join`
with one trailing backslash stripped if present, and a staging path given
with a trailing separator yields the identical result. A payload decode
error, however, fails the whole record (see the counterexample). -/
theorem rebase_succeeds_after_decode
    (rec : FileRec) (update_path dst : List Nat) (paths : List (List Nat))
    (hdec : decode_strings rec.data = .ok paths)
    (hpar : parentPath update_path = some dst) :
    rec.rebase update_path =
      .ok ⟨rec.typ, rec.extra_data,
        encode_strings (paths.map (rebaseOne update_path dst))⟩ ∧
    (∀ p, stripPathFront update_path p = none → rebaseOne update_path dst p = p) ∧
    (∀ p rem, stripPathFront update_path p = some rem →
      rebaseOne update_path dst p =
        (if (joinPath dst rem).getLast? = some 92 then (joinPath dst rem).dropLast
         else joinPath dst rem)) ∧
    rec.rebase (update_path ++ [92]) = rec.rebase update_path := by
  refine ⟨?_, ?_, ?_, rebase_snoc_sep rec update_path⟩
  · unfold FileRec.rebase
    rw [hdec]
    simp only []
    rw [hpar]
  · intro p h
    unfold rebaseOne
    rw [h]
  · intro p rem h
    unfold rebaseOne
    rw [h]

/-- Witness for C4: on a record with an empty path list and staging path
`C:\Code\_`, rebase succeeds; the spec's example path rebases to
`C:\Code\bar.txt`; an unrelated path passes through; a trailing separator
on the staging path changes nothing. -/
theorem rebase_succeeds_after_decode_witness :
    FileRec.rebase ⟨UninstallRecTyp.DeleteFile, 0, [0xff]⟩ (str "C:\\Code\\_") =
      .ok ⟨UninstallRecTyp.DeleteFile, 0, encode_strings []⟩ ∧
    rebaseOne (str "C:\\Code\\_") (str "C:\\Code") (str "C:\\Code\\_\\bar.txt") =
      str "C:\\Code\\bar.txt" ∧
    rebaseOne (str "C:\\Code\\_") (str "C:\\Code") (str "D:\\Other\\x.txt") =
      str "D:\\Other\\x.txt" ∧
    FileRec.rebase ⟨UninstallRecTyp.DeleteFile, 0, [0xff]⟩ (str "C:\\Code\\_" ++ [92]) =
      FileRec.rebase ⟨UninstallRecTyp.DeleteFile, 0, [0xff]⟩ (str "C:\\Code\\_") := by
  have h := rebase_succeeds_after_decode ⟨UninstallRecTyp.DeleteFile, 0, [0xff]⟩
    (str "C:\\Code\\_") (str "C:\\Code") []
    (by unfold decode_strings; rw [decodeStringsGo_cons]; decide)
    (by decide)
  refine ⟨by simpa using h.1, ?_, ?_, h.2.2.2⟩
  · rw [h.2.2.1 (str "C:\\Code\\_\\bar.txt") (str "bar.txt") (by decide)]
    decide
  · exact h.2.1 (str "D:\\Other\\x.txt") (by decide)

/-- C5. For inputs on which no record's path decode hits the odd-size
assertion, the dedup filter of `patch_uninstdat` computes exactly the
first-occurrence filter `dedupSpec`, whose keep/drop decision `keepsRec`
satisfies: non-delete records are always kept; a record whose decoded path
list has length other than one is kept; a delete record whose paths fail
to decode is dropped; a delete record with exactly one decoded path is
kept iff no earlier delete record decoded to the same single path; and the
header written back reports `num_recs` equal to the surviving count. -/
theorem dedup_first_occurrence_and_count (recs : List FileRec) (hdr : Header)
    (hnp : ∀ r ∈ recs, r.get_paths ≠ .panicked) :
    dedupGo [] recs = .ok (dedupSpec [] recs) ∧
    (∀ prior rec, ¬ isDeleteTyp rec.typ → keepsRec prior rec = true) ∧
    (∀ prior rec paths, rec.get_paths = .ok paths → paths.length ≠ 1 →
      keepsRec prior rec = true) ∧
    (∀ prior rec e, isDeleteTyp rec.typ → rec.get_paths = .err e →
      keepsRec prior rec = false) ∧
    (∀ prior rec p, isDeleteTyp rec.typ → rec.get_paths = .ok [p] →
      (keepsRec prior rec = true ↔
        ∀ r ∈ prior, ¬ (isDeleteTyp r.typ ∧ r.get_paths = .ok [p]))) ∧
    (Header.clone_with_num_recs hdr (dedupSpec [] recs).length).num_recs =
      (dedupSpec [] recs).length := by
  refine ⟨dedupGo_spec recs [] [] hnp (by simp), ?_, ?_, ?_, ?_, rfl⟩
  · intro prior rec h
    unfold keepsRec
    rw [if_pos h]
  · intro prior rec paths hgp hlen
    unfold keepsRec
    by_cases hd : isDeleteTyp rec.typ
    · rw [if_neg (not_not_intro hd), hgp]
      simp only []
      rw [if_pos hlen]
    · rw [if_pos hd]
  · intro prior rec e hd hgp
    unfold keepsRec
    rw [if_neg (not_not_intro hd), hgp]
  · intro prior rec p hd hgp
    unfold keepsRec
    rw [if_neg (not_not_intro hd), hgp]
    simp only []
    rw [if_neg (by simp)]
    simp only [decide_eq_true_eq]
    constructor
    · intro hna r hr hcon
      apply hna
      rw [List.any_eq_true]
      exact ⟨r, hr, by simpa using hcon⟩
    · intro hall hany
      rw [List.any_eq_true] at hany
      obtain ⟨r, hr, hp⟩ := hany
      exact hall r hr (by simpa using hp)

/-- Witness for C5: on four records — a single-path DeleteFile, a Run
record, a DeleteDirOrFiles duplicating the first path, and a DeleteFile
with an undecodable payload — the dedup pass keeps exactly the first two,
and the rewritten header counts 2 records. -/
theorem dedup_first_occurrence_and_count_witness :
    dedupGo []
      [⟨UninstallRecTyp.DeleteFile, 0, [0xfe, 0xfe, 0xff, 0xff, 0xff, 65, 0, 0xff]⟩,
       ⟨UninstallRecTyp.Run, 3, []⟩,
       ⟨UninstallRecTyp.DeleteDirOrFiles, 7, [0xfe, 0xfe, 0xff, 0xff, 0xff, 65, 0, 0xff]⟩,
       ⟨UninstallRecTyp.DeleteFile, 0, [0x00]⟩] =
      .ok [⟨UninstallRecTyp.DeleteFile, 0, [0xfe, 0xfe, 0xff, 0xff, 0xff, 65, 0, 0xff]⟩,
           ⟨UninstallRecTyp.Run, 3, []⟩] ∧
    (Header.clone_with_num_recs ⟨HEADER_ID_32, [], [], 48, 4, 0, 0, 0⟩
      (dedupSpec []
        [⟨UninstallRecTyp.DeleteFile, 0, [0xfe, 0xfe, 0xff, 0xff, 0xff, 65, 0, 0xff]⟩,
         ⟨UninstallRecTyp.Run, 3, []⟩,
         ⟨UninstallRecTyp.DeleteDirOrFiles, 7, [0xfe, 0xfe, 0xff, 0xff, 0xff, 65, 0, 0xff]⟩,
         ⟨UninstallRecTyp.DeleteFile, 0, [0x00]⟩]).length).num_recs = 2 := by
  have hdata1 : decode_strings [0xfe, 0xfe, 0xff, 0xff, 0xff, 65, 0, 0xff] = .ok [[65]] := by
    unfold decode_strings
    rw [decodeStringsGo_cons, if_pos rfl,
      show handleEntry [0xfe, 0xff, 0xff, 0xff, 65, 0, 0xff] = .push [65] 2 from by decide]
    show decodeStringsGo [[65]] [0xff] = .ok [[65]]
    rw [decodeStringsGo_cons]
    decide
  have hdataC : decode_strings ([] : List Nat) =
      .err "Failed to parse file rec string header" := by
    unfold decode_strings
    rw [decodeStringsGo.eq_def]
  have hdataD : decode_strings [0x00] = .err "Invalid file rec string header" := by
    unfold decode_strings
    rw [decodeStringsGo_cons]
    decide
  have hB : FileRec.get_paths
      ⟨UninstallRecTyp.DeleteFile, 0, [0xfe, 0xfe, 0xff, 0xff, 0xff, 65, 0, 0xff]⟩ =
      .ok [[65]] := hdata1
  have hB2 : FileRec.get_paths
      ⟨UninstallRecTyp.DeleteDirOrFiles, 7, [0xfe, 0xfe, 0xff, 0xff, 0xff, 65, 0, 0xff]⟩ =
      .ok [[65]] := hdata1
  have hC : FileRec.get_paths ⟨UninstallRecTyp.Run, 3, []⟩ =
      .err "Failed to parse file rec string header" := hdataC
  have hD : FileRec.get_paths ⟨UninstallRecTyp.DeleteFile, 0, [0x00]⟩ =
      .err "Invalid file rec string header" := hdataD
  have h := dedup_first_occurrence_and_count
    [⟨UninstallRecTyp.DeleteFile, 0, [0xfe, 0xfe, 0xff, 0xff, 0xff, 65, 0, 0xff]⟩,
     ⟨UninstallRecTyp.Run, 3, []⟩,
     ⟨UninstallRecTyp.DeleteDirOrFiles, 7, [0xfe, 0xfe, 0xff, 0xff, 0xff, 65, 0, 0xff]⟩,
     ⟨UninstallRecTyp.DeleteFile, 0, [0x00]⟩]
    ⟨HEADER_ID_32, [], [], 48, 4, 0, 0, 0⟩
    (by
      intro r hr
      simp only [List.mem_cons, List.not_mem_nil, or_false] at hr
      rcases hr with rfl | rfl | rfl | rfl
      · rw [hB]; decide
      · rw [hC]; decide
      · rw [hB2]; decide
      · rw [hD]; decide)
  have k1 := (h.2.2.2.2.1 []
    ⟨UninstallRecTyp.DeleteFile, 0, [0xfe, 0xfe, 0xff, 0xff, 0xff, 65, 0, 0xff]⟩
    [65] (by decide) hB).mpr (by simp)
  have k2 := h.2.1
    [⟨UninstallRecTyp.DeleteFile, 0, [0xfe, 0xfe, 0xff, 0xff, 0xff, 65, 0, 0xff]⟩]
    ⟨UninstallRecTyp.Run, 3, []⟩ (by decide)
  have k3 : keepsRec
      [⟨UninstallRecTyp.DeleteFile, 0, [0xfe, 0xfe, 0xff, 0xff, 0xff, 65, 0, 0xff]⟩,
       ⟨UninstallRecTyp.Run, 3, []⟩]
      ⟨UninstallRecTyp.DeleteDirOrFiles, 7, [0xfe, 0xfe, 0xff, 0xff, 0xff, 65, 0, 0xff]⟩ =
      false := by
    have hd := h.2.2.2.2.1
      [⟨UninstallRecTyp.DeleteFile, 0, [0xfe, 0xfe, 0xff, 0xff, 0xff, 65, 0, 0xff]⟩,
       ⟨UninstallRecTyp.Run, 3, []⟩]
      ⟨UninstallRecTyp.DeleteDirOrFiles, 7, [0xfe, 0xfe, 0xff, 0xff, 0xff, 65, 0, 0xff]⟩
      [65] (by decide) hB2
    rcases Bool.eq_false_or_eq_true (keepsRec
      [⟨UninstallRecTyp.DeleteFile, 0, [0xfe, 0xfe, 0xff, 0xff, 0xff, 65, 0, 0xff]⟩,
       ⟨UninstallRecTyp.Run, 3, []⟩]
      ⟨UninstallRecTyp.DeleteDirOrFiles, 7, [0xfe, 0xfe, 0xff, 0xff, 0xff, 65, 0, 0xff]⟩)
      with hk | hk
    · exact absurd ⟨by decide, hB⟩ (hd.mp hk _ (by simp))
    · exact hk
  have k4 := h.2.2.2.1
    [⟨UninstallRecTyp.DeleteFile, 0, [0xfe, 0xfe, 0xff, 0xff, 0xff, 65, 0, 0xff]⟩,
     ⟨UninstallRecTyp.Run, 3, []⟩,
     ⟨UninstallRecTyp.DeleteDirOrFiles, 7, [0xfe, 0xfe, 0xff, 0xff, 0xff, 65, 0, 0xff]⟩]
    ⟨UninstallRecTyp.DeleteFile, 0, [0x00]⟩
    "Invalid file rec string header" (by decide) hD
  have hspec : dedupSpec []
      [⟨UninstallRecTyp.DeleteFile, 0, [0xfe, 0xfe, 0xff, 0xff, 0xff, 65, 0, 0xff]⟩,
       ⟨UninstallRecTyp.Run, 3, []⟩,
       ⟨UninstallRecTyp.DeleteDirOrFiles, 7, [0xfe, 0xfe, 0xff, 0xff, 0xff, 65, 0, 0xff]⟩,
       ⟨UninstallRecTyp.DeleteFile, 0, [0x00]⟩] =
      [⟨UninstallRecTyp.DeleteFile, 0, [0xfe, 0xfe, 0xff, 0xff, 0xff, 65, 0, 0xff]⟩,
       ⟨UninstallRecTyp.Run, 3, []⟩] := by
    simp [dedupSpec, k1, k2, k3, k4]
  refine ⟨?_, ?_⟩
  · rw [h.1, hspec]
  · have h6 := h.2.2.2.2.2
    rw [hspec] at h6
    rw [hspec]
    simpa using h6

theorem hdrPre_length : hdrPre.length = 444 := by decide

theorem hdrPreBad_length : hdrPreBad.length = 444 := by decide

theorem crcBuf_length (pre : List Nat) (hlen : pre.length = 444) :
    (pre ++ le 4 (crc32 pre)).length = 448 := by
  simp [List.length_append, hlen, le_length]

theorem crcBuf_take448 (pre : List Nat) (hlen : pre.length = 444) :
    (pre ++ le 4 (crc32 pre)).take 448 = pre ++ le 4 (crc32 pre) :=
  List.take_of_length_le (by rw [crcBuf_length pre hlen])

theorem crcBuf_crc_ok (pre : List Nat) (hlen : pre.length = 444)
    (hb : ∀ b ∈ pre, b < 2 ^ 32) :
    crc32 ((pre ++ le 4 (crc32 pre)).take 444) =
      leVal 4 ((pre ++ le 4 (crc32 pre)).drop 444) := by
  rw [List.take_left' hlen, List.drop_left' hlen]
  rw [show le 4 (crc32 pre) = le 4 (crc32 pre) ++ [] from (List.append_nil _).symm]
  rw [leVal_le (crc32 pre) (crc32_lt pre hb) []]

theorem crcBuf_drop448 (pre : List Nat) (hlen : pre.length = 444) :
    (pre ++ le 4 (crc32 pre)).drop 448 = [] :=
  List.drop_eq_nil_of_le (by rw [crcBuf_length pre hlen])

theorem hdrBuf_take448 : hdrBuf.take 448 = hdrBuf := crcBuf_take448 hdrPre hdrPre_length

theorem hdrBuf_length : hdrBuf.length = 448 := crcBuf_length hdrPre hdrPre_length

theorem hdrBuf_id_field : read_utf8_field ((hdrBuf.take 448).take 64) = some HEADER_ID_32 := by
  rw [hdrBuf_take448]
  show read_utf8_field ((hdrPre ++ le 4 (crc32 hdrPre)).take 64) = _
  rw [List.take_append_of_le_length (by rw [hdrPre_length]; omega)]
  decide

theorem hdrBuf_app_id_field :
    read_utf8_field (((hdrBuf.take 448).drop 64).take 128) = some [65] := by
  rw [hdrBuf_take448]
  show read_utf8_field (((hdrPre ++ le 4 (crc32 hdrPre)).drop 64).take 128) = _
  rw [List.drop_append_of_le_length (by rw [hdrPre_length]; omega)]
  rw [List.take_append_of_le_length (by simp [List.length_drop, hdrPre_length])]
  decide

theorem hdrBuf_app_name_field :
    read_utf8_field (((hdrBuf.take 448).drop 192).take 128) = some [66] := by
  rw [hdrBuf_take448]
  show read_utf8_field (((hdrPre ++ le 4 (crc32 hdrPre)).drop 192).take 128) = _
  rw [List.drop_append_of_le_length (by rw [hdrPre_length]; omega)]
  rw [List.take_append_of_le_length (by simp [List.length_drop, hdrPre_length])]
  decide

theorem hdrBuf_crc_ok :
    crc32 ((hdrBuf.take 448).take 444) = leVal 4 ((hdrBuf.take 448).drop 444) := by
  rw [hdrBuf_take448]
  exact crcBuf_crc_ok hdrPre hdrPre_length (by decide)

theorem hdrBuf_version_field : wrapI32 (leVal 4 ((hdrBuf.take 448).drop 320)) = 48 := by
  rw [hdrBuf_take448]
  show wrapI32 (leVal 4 ((hdrPre ++ le 4 (crc32 hdrPre)).drop 320)) = 48
  rw [List.drop_append_of_le_length (by rw [hdrPre_length]; omega)]
  rw [show hdrPre.drop 320 =
    le 4 48 ++ (le 4 2 ++ (le 4 0 ++ (le 4 0 ++ List.replicate 108 0))) from by decide]
  rw [List.append_assoc, leVal_le 48 (by norm_num)]
  decide

theorem hdrBuf_num_recs_field :
    i32AsU64 (wrapI32 (leVal 4 ((hdrBuf.take 448).drop 324))) = 2 := by
  rw [hdrBuf_take448]
  show i32AsU64 (wrapI32 (leVal 4 ((hdrPre ++ le 4 (crc32 hdrPre)).drop 324))) = 2
  rw [List.drop_append_of_le_length (by rw [hdrPre_length]; omega)]
  rw [show hdrPre.drop 324 =
    le 4 2 ++ (le 4 0 ++ (le 4 0 ++ List.replicate 108 0)) from by decide]
  rw [List.append_assoc, leVal_le 2 (by norm_num)]
  decide

theorem hdrBuf_end_offset_field : leVal 4 ((hdrBuf.take 448).drop 328) = 0 := by
  rw [hdrBuf_take448]
  show leVal 4 ((hdrPre ++ le 4 (crc32 hdrPre)).drop 328) = 0
  rw [List.drop_append_of_le_length (by rw [hdrPre_length]; omega)]
  rw [show hdrPre.drop 328 = le 4 0 ++ (le 4 0 ++ List.replicate 108 0) from by decide]
  rw [List.append_assoc, leVal_le 0 (by norm_num)]

theorem hdrBuf_flags_field : leVal 4 ((hdrBuf.take 448).drop 332) = 0 := by
  rw [hdrBuf_take448]
  show leVal 4 ((hdrPre ++ le 4 (crc32 hdrPre)).drop 332) = 0
  rw [List.drop_append_of_le_length (by rw [hdrPre_length]; omega)]
  rw [show hdrPre.drop 332 = le 4 0 ++ List.replicate 108 0 from by decide]
  rw [List.append_assoc, leVal_le 0 (by norm_num)]

theorem hdrBuf_crc_field : leVal 4 ((hdrBuf.take 448).drop 444) = crc32 hdrPre := by
  rw [hdrBuf_take448]
  show leVal 4 ((hdrPre ++ le 4 (crc32 hdrPre)).drop 444) = crc32 hdrPre
  rw [List.drop_left' hdrPre_length]
  rw [show le 4 (crc32 hdrPre) = le 4 (crc32 hdrPre) ++ [] from (List.append_nil _).symm]
  rw [leVal_le (crc32 hdrPre) (crc32_lt hdrPre (by decide)) []]

theorem hdrBuf_drop448 : hdrBuf.drop 448 = [] := crcBuf_drop448 hdrPre hdrPre_length

/-- `hdrBuf` decodes to the expected header, consuming all 448 bytes. -/
theorem hdrBuf_decodes : Header.from_reader hdrBuf =
    .ok (⟨HEADER_ID_32, [65], [66], 48, 2, 0, 0, crc32 hdrPre⟩, []) := by
  unfold Header.from_reader
  have htE : takeExact 448 hdrBuf = some (hdrBuf.take 448, hdrBuf.drop 448) := by
    unfold takeExact
    rw [if_pos (by rw [hdrBuf_length])]
  rw [htE]
  simp only []
  rw [hdrBuf_id_field]
  simp only []
  rw [hdrBuf_app_id_field]
  simp only []
  rw [hdrBuf_app_name_field]
  simp only []
  rw [if_neg (by simp [hdrBuf_crc_ok])]
  rw [if_neg (by simp)]
  rw [if_neg (by rw [hdrBuf_version_field]; norm_num [HIGHEST_SUPPORTED_VERSION])]
  rw [hdrBuf_version_field, hdrBuf_num_recs_field, hdrBuf_end_offset_field,
    hdrBuf_flags_field, hdrBuf_crc_field, hdrBuf_drop448]

/-- C6 counterexample: a 448-byte buffer whose CRC matches, whose id is a
recognized magic string and whose version is supported can still fail to
decode — the app-id field is validated as UTF-8 before any of the three
checks the claim lists, so the claim's "otherwise it returns the parsed
header" does not hold. -/
theorem header_utf8_error_despite_valid_invariants :
    crc32 ((hdrBufBad.take 448).take 444) = leVal 4 ((hdrBufBad.take 448).drop 444) ∧
    read_utf8_field ((hdrBufBad.take 448).take 64) = some HEADER_ID_32 ∧
    wrapI32 (leVal 4 ((hdrBufBad.take 448).drop 320)) ≤ HIGHEST_SUPPORTED_VERSION ∧
    Header.from_reader hdrBufBad = .err "Failed to parse header app ID" := by
  have ht448 : hdrBufBad.take 448 = hdrBufBad := crcBuf_take448 hdrPreBad hdrPreBad_length
  have hidf : read_utf8_field ((hdrBufBad.take 448).take 64) = some HEADER_ID_32 := by
    rw [ht448]
    show read_utf8_field ((hdrPreBad ++ le 4 (crc32 hdrPreBad)).take 64) = _
    rw [List.take_append_of_le_length (by rw [hdrPreBad_length]; omega)]
    decide
  have happf : read_utf8_field (((hdrBufBad.take 448).drop 64).take 128) = none := by
    rw [ht448]
    show read_utf8_field (((hdrPreBad ++ le 4 (crc32 hdrPreBad)).drop 64).take 128) = _
    rw [List.drop_append_of_le_length (by rw [hdrPreBad_length]; omega)]
    rw [List.take_append_of_le_length (by simp [List.length_drop, hdrPreBad_length])]
    decide
  refine ⟨?_, hidf, ?_, ?_⟩
  · rw [ht448]
    exact crcBuf_crc_ok hdrPreBad hdrPreBad_length (by decide)
  · rw [ht448]
    show wrapI32 (leVal 4 ((hdrPreBad ++ le 4 (crc32 hdrPreBad)).drop 320)) ≤ _
    rw [List.drop_append_of_le_length (by rw [hdrPreBad_length]; omega)]
    rw [show hdrPreBad.drop 320 =
      le 4 48 ++ (le 4 2 ++ (le 4 0 ++ (le 4 0 ++ List.replicate 108 0))) from by decide]
    rw [List.append_assoc, leVal_le 48 (by norm_num)]
    decide
  · unfold Header.from_reader
    have htE : takeExact 448 hdrBufBad = some (hdrBufBad.take 448, hdrBufBad.drop 448) := by
      unfold takeExact
      rw [if_pos (by rw [show hdrBufBad.length = 448 from
        crcBuf_length hdrPreBad hdrPreBad_length])]
    rw [htE]
    simp only []
    rw [hidf]
    simp only []
    rw [happf]

/-- C6 (amended). `Header::from_reader` accepts no partial header (fewer
than 448 bytes is an error), and on a 448-byte read whose three string
fields parse as UTF-8 it validates, in this order: the stored CRC-32
against the checksum of the first 444 bytes, the identifier against the
two magic strings, and the version against the highest supported constant
— failing with the corresponding error — and otherwise returns the parsed
header, consuming exactly 448 bytes. (If a string field fails UTF-8
validation it errors even when all three listed invariants hold; see the
counterexample.) -/
theorem header_from_reader_checks (input : List Nat)
    (id app_id app_name : List Nat)
    (hid : read_utf8_field ((input.take 448).take 64) = some id)
    (happ : read_utf8_field (((input.take 448).drop 64).take 128) = some app_id)
    (hname : read_utf8_field (((input.take 448).drop 192).take 128) = some app_name) :
    (input.length < 448 → Header.from_reader input = .err "Failed to read header to buffer") ∧
    (448 ≤ input.length →
      ((crc32 ((input.take 448).take 444) ≠ leVal 4 ((input.take 448).drop 444) →
        Header.from_reader input = .err "CRC32 check failed") ∧
      (crc32 ((input.take 448).take 444) = leVal 4 ((input.take 448).drop 444) →
        id ≠ HEADER_ID_32 → id ≠ HEADER_ID_64 →
        Header.from_reader input = .err "Invalid header ID") ∧
      (crc32 ((input.take 448).take 444) = leVal 4 ((input.take 448).drop 444) →
        (id = HEADER_ID_32 ∨ id = HEADER_ID_64) →
        HIGHEST_SUPPORTED_VERSION < wrapI32 (leVal 4 ((input.take 448).drop 320)) →
        Header.from_reader input = .err "Header version not supported") ∧
      (crc32 ((input.take 448).take 444) = leVal 4 ((input.take 448).drop 444) →
        (id = HEADER_ID_32 ∨ id = HEADER_ID_64) →
        wrapI32 (leVal 4 ((input.take 448).drop 320)) ≤ HIGHEST_SUPPORTED_VERSION →
        Header.from_reader input =
          .ok (⟨id, app_id, app_name,
            wrapI32 (leVal 4 ((input.take 448).drop 320)),
            i32AsU64 (wrapI32 (leVal 4 ((input.take 448).drop 324))),
            leVal 4 ((input.take 448).drop 328),
            leVal 4 ((input.take 448).drop 332),
            leVal 4 ((input.take 448).drop 444)⟩, input.drop 448)))) := by
  constructor
  · intro hshort
    unfold Header.from_reader takeExact
    rw [if_neg (by omega)]
  · intro hlen
    have htE : takeExact 448 input = some (input.take 448, input.drop 448) := by
      unfold takeExact
      rw [if_pos hlen]
    refine ⟨?_, ?_, ?_, ?_⟩
    · intro hcrc
      unfold Header.from_reader
      rw [htE]
      simp only []
      rw [hid]
      simp only []
      rw [happ]
      simp only []
      rw [hname]
      simp only []
      rw [if_pos hcrc]
    · intro hcrc h1 h2
      unfold Header.from_reader
      rw [htE]
      simp only []
      rw [hid]
      simp only []
      rw [happ]
      simp only []
      rw [hname]
      simp only []
      rw [if_neg (by simp [hcrc]), if_pos ⟨h1, h2⟩]
    · intro hcrc hidok hver
      unfold Header.from_reader
      rw [htE]
      simp only []
      rw [hid]
      simp only []
      rw [happ]
      simp only []
      rw [hname]
      simp only []
      rw [if_neg (by simp [hcrc])]
      rw [if_neg (by rcases hidok with h | h <;> simp [h])]
      rw [if_pos hver]
    · intro hcrc hidok hver
      unfold Header.from_reader
      rw [htE]
      simp only []
      rw [hid]
      simp only []
      rw [happ]
      simp only []
      rw [hname]
      simp only []
      rw [if_neg (by simp [hcrc])]
      rw [if_neg (by rcases hidok with h | h <;> simp [h])]
      rw [if_neg (not_lt.mpr hver)]

/-- Witness for C6: a too-short input is rejected, and the valid buffer
`hdrBuf` decodes to the expected header with nothing left over. -/
theorem header_from_reader_checks_witness :
    Header.from_reader [] = .err "Failed to read header to buffer" ∧
    Header.from_reader hdrBuf =
      .ok (⟨HEADER_ID_32, [65], [66], 48, 2, 0, 0, crc32 hdrPre⟩, []) := by
  constructor
  · exact (header_from_reader_checks [] [] [] [] (by decide) (by decide) (by decide)).1
      (by decide)
  · have h := (header_from_reader_checks hdrBuf HEADER_ID_32 [65] [66]
      hdrBuf_id_field hdrBuf_app_id_field hdrBuf_app_name_field).2
      (by rw [hdrBuf_length])
    have h4 := h.2.2.2 hdrBuf_crc_ok (Or.inl rfl)
      (by rw [hdrBuf_version_field]; norm_num [HIGHEST_SUPPORTED_VERSION])
    rw [h4]
    rw [hdrBuf_version_field, hdrBuf_num_recs_field, hdrBuf_end_offset_field,
      hdrBuf_flags_field, hdrBuf_crc_field, hdrBuf_drop448]

/-- A successful header decode implies the input held at least 448 bytes
and the stored CRC matched the checksum of the first 444. -/
theorem from_reader_ok_facts (input : List Nat)
    (h : (Header.from_reader input).isOk = true) :
    448 ≤ input.length ∧
    crc32 ((input.take 448).take 444) = leVal 4 ((input.take 448).drop 444) := by
  unfold Header.from_reader at h
  cases htE : takeExact 448 input with
  | none => rw [htE] at h; simp [DRes.isOk] at h
  | some p =>
    obtain ⟨buf, rest⟩ := p
    rw [htE] at h
    simp only [] at h
    have hl : 448 ≤ input.length ∧ buf = input.take 448 := by
      unfold takeExact at htE
      by_cases hle : 448 ≤ input.length
      · rw [if_pos hle] at htE
        simp at htE
        exact ⟨hle, htE.1.symm⟩
      · rw [if_neg hle] at htE
        simp at htE
    obtain ⟨hle, hb⟩ := hl
    subst hb
    refine ⟨hle, ?_⟩
    cases hid : read_utf8_field ((input.take 448).take 64) with
    | none => rw [hid] at h; simp [DRes.isOk] at h
    | some id =>
      rw [hid] at h
      simp only [] at h
      cases happ : read_utf8_field (((input.take 448).drop 64).take 128) with
      | none => rw [happ] at h; simp [DRes.isOk] at h
      | some a =>
        rw [happ] at h
        simp only [] at h
        cases hname : read_utf8_field (((input.take 448).drop 192).take 128) with
        | none => rw [hname] at h; simp [DRes.isOk] at h
        | some nm =>
          rw [hname] at h
          simp only [] at h
          by_cases hcrc : crc32 ((input.take 448).take 444) ≠
              leVal 4 ((input.take 448).drop 444)
          · rw [if_pos hcrc] at h
            simp [DRes.isOk] at h
          · exact not_not.mp hcrc

/-- C7 (amended). Flipping any single bit within the first 444 bytes of a
buffer that decodes successfully makes `Header::from_reader` fail — and it
fails specifically with the CRC error whenever the three string fields of
the modified buffer still parse as UTF-8. It need not be the CRC error
otherwise: the fields are read before the CRC is checked, so a flip that
breaks a string field's UTF-8 fails with that field's parse error instead
(see the counterexample). -/
theorem header_bit_flip_rejected (input : List Nat) (i j : Nat)
    (hok : (Header.from_reader input).isOk = true)
    (hi : i < 444) (hj : j < 8) :
    ((Header.from_reader (input.set i (input.getD i 0 ^^^ 2 ^ j))).isOk = false) ∧
    (∀ id app_id app_name,
      read_utf8_field (((input.set i (input.getD i 0 ^^^ 2 ^ j)).take 448).take 64) =
        some id →
      read_utf8_field ((((input.set i (input.getD i 0 ^^^ 2 ^ j)).take 448).drop 64).take 128) =
        some app_id →
      read_utf8_field ((((input.set i (input.getD i 0 ^^^ 2 ^ j)).take 448).drop 192).take 128) =
        some app_name →
      Header.from_reader (input.set i (input.getD i 0 ^^^ 2 ^ j)) =
        .err "CRC32 check failed") := by
  obtain ⟨hle, hcrc⟩ := from_reader_ok_facts input hok
  have htt : (input.take 448).take 444 = input.take 444 := by
    rw [List.take_take, show (444 : Nat) ⊓ 448 = 444 from by decide]
  have hgd : (input.take 444).getD i 0 = input.getD i 0 := by
    simp [List.getD_eq_getElem?_getD, List.getElem?_take, hi]
  have hF1 : ((input.set i (input.getD i 0 ^^^ 2 ^ j)).take 448).take 444 =
      (input.take 444).set i ((input.take 444).getD i 0 ^^^ 2 ^ j) := by
    rw [List.set_take, List.set_take, List.take_take,
      show (444 : Nat) ⊓ 448 = 444 from by decide, hgd]
  have hF2 : ((input.set i (input.getD i 0 ^^^ 2 ^ j)).take 448).drop 444 =
      (input.take 448).drop 444 := by
    rw [List.set_take]
    exact List.drop_set_of_lt _ _ hi
  have hilen : i < (input.take 444).length := by
    rw [List.length_take]
    omega
  have hne : crc32 (((input.set i (input.getD i 0 ^^^ 2 ^ j)).take 448).take 444) ≠
      leVal 4 (((input.set i (input.getD i 0 ^^^ 2 ^ j)).take 448).drop 444) := by
    rw [hF1, hF2, ← hcrc, htt]
    exact crc32_set_ne (input.take 444) i (2 ^ j) hilen
      (by positivity) (Nat.pow_lt_pow_right (by norm_num) (by omega))
  have hlen2 : 448 ≤ (input.set i (input.getD i 0 ^^^ 2 ^ j)).length := by
    rw [List.length_set]
    exact hle
  have htEm : takeExact 448 (input.set i (input.getD i 0 ^^^ 2 ^ j)) =
      some ((input.set i (input.getD i 0 ^^^ 2 ^ j)).take 448,
        (input.set i (input.getD i 0 ^^^ 2 ^ j)).drop 448) := by
    unfold takeExact
    rw [if_pos hlen2]
  have hfail : ∀ id app_id app_name,
      read_utf8_field (((input.set i (input.getD i 0 ^^^ 2 ^ j)).take 448).take 64) =
        some id →
      read_utf8_field ((((input.set i (input.getD i 0 ^^^ 2 ^ j)).take 448).drop 64).take 128) =
        some app_id →
      read_utf8_field ((((input.set i (input.getD i 0 ^^^ 2 ^ j)).take 448).drop 192).take 128) =
        some app_name →
      Header.from_reader (input.set i (input.getD i 0 ^^^ 2 ^ j)) =
        .err "CRC32 check failed" := by
    intro id app_id app_name hid happ hname
    unfold Header.from_reader
    rw [htEm]
    simp only []
    rw [hid]
    simp only []
    rw [happ]
    simp only []
    rw [hname]
    simp only []
    rw [if_pos hne]
  refine ⟨?_, hfail⟩
  cases hid : read_utf8_field (((input.set i (input.getD i 0 ^^^ 2 ^ j)).take 448).take 64) with
  | none =>
    unfold Header.from_reader
    rw [htEm]
    simp only []
    rw [hid]
    rfl
  | some id =>
    cases happ : read_utf8_field
        ((((input.set i (input.getD i 0 ^^^ 2 ^ j)).take 448).drop 64).take 128) with
    | none =>
      unfold Header.from_reader
      rw [htEm]
      simp only []
      rw [hid]
      simp only []
      rw [happ]
      rfl
    | some a =>
      cases hname : read_utf8_field
          ((((input.set i (input.getD i 0 ^^^ 2 ^ j)).take 448).drop 192).take 128) with
      | none =>
        unfold Header.from_reader
        rw [htEm]
        simp only []
        rw [hid]
        simp only []
        rw [happ]
        simp only []
        rw [hname]
        rfl
      | some nm =>
        rw [hfail id a nm hid happ hname]
        rfl

/-- Witness for C7: flipping bit 7 of `hdrBuf`'s app-id byte makes the
decode fail (with a UTF-8 field error, not the CRC error), while flipping
bit 0 of a reserved byte — which leaves all three string fields intact —
fails with the CRC error. -/
theorem header_bit_flip_rejected_witness :
    ((Header.from_reader (hdrBuf.set 64 (hdrBuf.getD 64 0 ^^^ 2 ^ 7))).isOk = false) ∧
    Header.from_reader (hdrBuf.set 400 (hdrBuf.getD 400 0 ^^^ 2 ^ 0)) =
      .err "CRC32 check failed" := by
  constructor
  · exact (header_bit_flip_rejected hdrBuf 64 7 (by rw [hdrBuf_decodes]; rfl)
      (by decide) (by decide)).1
  · refine (header_bit_flip_rejected hdrBuf 400 0 (by rw [hdrBuf_decodes]; rfl)
      (by decide) (by decide)).2 HEADER_ID_32 [65] [66] ?_ ?_ ?_
    · rw [List.set_take, List.set_take,
        List.set_eq_of_length_le (by simp [List.length_take, hdrBuf_length])]
      exact hdrBuf_id_field
    · rw [List.set_take, List.drop_set, if_neg (by decide), List.set_take,
        List.set_eq_of_length_le
          (by simp [List.length_take, List.length_drop, hdrBuf_length])]
      exact hdrBuf_app_id_field
    · rw [List.set_take, List.drop_set, if_neg (by decide), List.set_take,
        List.set_eq_of_length_le
          (by simp [List.length_take, List.length_drop, hdrBuf_length])]
      exact hdrBuf_app_name_field

/-- C7 counterexample: `hdrBuf` decodes successfully, yet flipping bit 7 of
byte 64 — inside the first 444 bytes — fails with the app-id UTF-8 parse
error rather than the CRC error the claim requires. -/
theorem header_bit_flip_field_error :
    (Header.from_reader hdrBuf).isOk = true ∧
    Header.from_reader (hdrBuf.set 64 (hdrBuf.getD 64 0 ^^^ 2 ^ 7)) =
      .err "Failed to parse header app ID" := by
  refine ⟨by rw [hdrBuf_decodes]; rfl, ?_⟩
  have htEm : takeExact 448 (hdrBuf.set 64 (hdrBuf.getD 64 0 ^^^ 2 ^ 7)) =
      some ((hdrBuf.set 64 (hdrBuf.getD 64 0 ^^^ 2 ^ 7)).take 448,
        (hdrBuf.set 64 (hdrBuf.getD 64 0 ^^^ 2 ^ 7)).drop 448) := by
    unfold takeExact
    rw [if_pos (by rw [List.length_set, hdrBuf_length])]
  have hidf : read_utf8_field
      (((hdrBuf.set 64 (hdrBuf.getD 64 0 ^^^ 2 ^ 7)).take 448).take 64) =
      some HEADER_ID_32 := by
    rw [List.set_take, List.set_take,
      List.set_eq_of_length_le (by simp [List.length_take, hdrBuf_length])]
    exact hdrBuf_id_field
  have hfield : ((hdrBuf.take 448).drop 64).take 128 = 65 :: List.replicate 127 0 := by
    rw [hdrBuf_take448]
    show ((hdrPre ++ le 4 (crc32 hdrPre)).drop 64).take 128 = _
    rw [List.drop_append_of_le_length (by rw [hdrPre_length]; omega),
      List.take_append_of_le_length (by simp [List.length_drop, hdrPre_length])]
    decide
  have hgd64 : hdrBuf.getD 64 0 = 65 := by
    show (hdrPre ++ le 4 (crc32 hdrPre)).getD 64 0 = 65
    rw [List.getD_eq_getElem?_getD, List.getElem?_append,
      if_pos (by rw [hdrPre_length]; omega)]
    decide
  have happf : read_utf8_field
      ((((hdrBuf.set 64 (hdrBuf.getD 64 0 ^^^ 2 ^ 7)).take 448).drop 64).take 128) =
      none := by
    rw [List.set_take, List.drop_set, if_neg (by decide), List.set_take, hfield, hgd64]
    decide
  unfold Header.from_reader
  rw [htEm]
  simp only []
  rw [hidf]
  simp only []
  rw [happf]

/-- C8. A block whose length word is not the bitwise complement of its
complement word, or whose length exceeds 4096, or whose payload fails the
CRC-32 check, fails the read with an `InvalidData` error; and when the
reader's buffer is empty, `BlockRead::read` returns that error as is — no
resynchronization or recovery is attempted. -/
theorem fill_buffer_invalid_data (size notSize crc : Nat) (rest : List Nat)
    (hs : size < 2 ^ 32) (hn : notSize < 2 ^ 32) (hc : crc < 2 ^ 32) :
    (size ≠ not32 notSize →
      fill_buffer (le 4 size ++ (le 4 notSize ++ (le 4 crc ++ rest))) =
        .error (.invalidData, "Block header size is corrupt")) ∧
    (size = not32 notSize → 4096 < size →
      fill_buffer (le 4 size ++ (le 4 notSize ++ (le 4 crc ++ rest))) =
        .error (.invalidData, "Block header size is too large")) ∧
    (size = not32 notSize → size ≤ 4096 → size ≤ rest.length →
      crc32 (rest.take size) ≠ crc →
      fill_buffer (le 4 size ++ (le 4 notSize ++ (le 4 crc ++ rest))) =
        .error (.invalidData, "Block header crc32 check failed")) ∧
    (∀ n e, n ≠ 0 →
      fill_buffer (le 4 size ++ (le 4 notSize ++ (le 4 crc ++ rest))) = .error e →
      blockRead n ⟨le 4 size ++ (le 4 notSize ++ (le 4 crc ++ rest)), []⟩ = .error e) := by
  refine ⟨?_, ?_, ?_, ?_⟩
  · intro hne
    unfold fill_buffer
    rw [readLE_le size hs]
    simp only []
    rw [readLE_le notSize hn]
    simp only []
    rw [readLE_le crc hc]
    simp only []
    rw [if_pos hne]
  · intro heq hbig
    unfold fill_buffer
    rw [readLE_le size hs]
    simp only []
    rw [readLE_le notSize hn]
    simp only []
    rw [readLE_le crc hc]
    simp only []
    rw [if_neg (not_not_intro heq), if_pos hbig]
  · intro heq hsmall hlen hcrc
    unfold fill_buffer
    rw [readLE_le size hs]
    simp only []
    rw [readLE_le notSize hn]
    simp only []
    rw [readLE_le crc hc]
    simp only []
    rw [if_neg (not_not_intro heq), if_neg (by omega)]
    rw [show takeExact size rest = some (rest.take size, rest.drop size) from by
      unfold takeExact; rw [if_pos hlen]]
    simp only []
    rw [if_pos hcrc]
  · intro n e hn0 hfb
    rw [blockRead.eq_def]
    rw [if_neg hn0]
    simp only []
    split
    · rename_i e1 heq
      rw [hfb] at heq
      simp at heq
      rw [heq]
    · rename_i p heq
      rw [hfb] at heq
      simp at heq

/-- Witness for C8: concrete corrupt blocks — complement mismatch, oversize
length, payload CRC mismatch — and the reader propagating the first error. -/
theorem fill_buffer_invalid_data_witness :
    fill_buffer (le 4 1 ++ (le 4 5 ++ (le 4 0 ++ []))) =
      .error (.invalidData, "Block header size is corrupt") ∧
    fill_buffer (le 4 4097 ++ (le 4 (not32 4097) ++ (le 4 0 ++ []))) =
      .error (.invalidData, "Block header size is too large") ∧
    fill_buffer (le 4 1 ++ (le 4 (not32 1) ++ (le 4 12345 ++ [7]))) =
      .error (.invalidData, "Block header crc32 check failed") ∧
    blockRead 1 ⟨le 4 1 ++ (le 4 5 ++ (le 4 0 ++ [])), []⟩ =
      .error (.invalidData, "Block header size is corrupt") := by
  have h1 := fill_buffer_invalid_data 1 5 0 [] (by decide) (by decide) (by decide)
  have h2 := fill_buffer_invalid_data 4097 (not32 4097) 0 []
    (by decide) (by decide) (by decide)
  have h3 := fill_buffer_invalid_data 1 (not32 1) 12345 [7]
    (by decide) (by decide) (by decide)
  exact ⟨h1.1 (by decide), h2.2.1 (by decide) (by decide),
    h3.2.2.1 (by decide) (by decide) (by decide) (by decide),
    h1.2.2.2 1 _ (by decide) (h1.1 (by decide))⟩

/-- One unfolding of the retry loop. -/
theorem retryGo_eq {E R : Type} (closure : Nat → Except E R) (maxAttempts : Nat)
    (oracle : List MBAnswer) (attempt : Nat) (sleeps : List Nat) :
    retryGo closure maxAttempts oracle attempt sleeps =
      match closure (attempt + 1) with
      | .ok r => ⟨.ok r, sleeps⟩
      | .error e =>
        if attempt + 1 ≥ maxAttempts then
          match oracle with
          | .retry :: oracle2 => retryGo closure maxAttempts oracle2 0 (sleeps ++ [0])
          | _ => ⟨.error e, sleeps⟩
        else
          retryGo closure maxAttempts oracle (attempt + 1)
            (sleeps ++ [(attempt + 1) ^ 2 * 50]) := by
  rw [retryGo.eq_def]

/-- C9. The retry loop calls the closure with attempts 1, 2, …, sleeps
`attempt² × 50` ms after each failed attempt below the bound, and returns a
success as soon as one occurs: an operation failing on attempts 1–10 and
succeeding on attempt 11 succeeds under `max_attempts = 11` after sleeps
50, 200, …, 5000 ms; under `max_attempts = 10` (with the Retry/Cancel box
cancelled) it returns the attempt-10 failure; an operation succeeding at
once returns its result with no sleeps. -/
theorem retry_backoff_and_bounds {E R : Type}
    (closure : Nat → Except E R) (err : Nat → E) (r : R)
    (hfail : ∀ k, 1 ≤ k → k ≤ 10 → closure k = .error (err k))
    (hsucc : closure 11 = .ok r) :
    retry closure (some 11) [] =
      ⟨.ok r, [50, 200, 450, 800, 1250, 1800, 2450, 3200, 4050, 5000]⟩ ∧
    retry closure (some 10) [] =
      ⟨.error (err 10), [50, 200, 450, 800, 1250, 1800, 2450, 3200, 4050]⟩ ∧
    (∀ (closure2 : Nat → Except E R) (r2 : R) (ma : Option Nat) (oracle : List MBAnswer),
      closure2 1 = .ok r2 → retry closure2 ma oracle = ⟨.ok r2, []⟩) := by
  refine ⟨?_, ?_, ?_⟩
  · simp [retry, retryGo_eq, hfail, hsucc]
  · simp [retry, retryGo_eq, hfail]
  · intro closure2 r2 ma oracle h
    unfold retry
    rw [retryGo_eq]
    simp [h]

/-- Witness for C9: the concrete operation failing below attempt 11. -/
theorem retry_backoff_and_bounds_witness :
    retry (fun k => if k < 11 then .error k else .ok "done") (some 11) [] =
      ⟨.ok "done", [50, 200, 450, 800, 1250, 1800, 2450, 3200, 4050, 5000]⟩ ∧
    retry (fun k => if k < 11 then .error k else .ok "done") (some 10) [] =
      ⟨.error 10, [50, 200, 450, 800, 1250, 1800, 2450, 3200, 4050]⟩ ∧
    retry (fun _ => (.ok 7 : Except Nat Nat)) (some 11) [] = ⟨.ok 7, []⟩ := by
  have h := @retry_backoff_and_bounds Nat String
    (fun k => if k < 11 then .error k else .ok "done") (fun k => k) "done"
    (by intro k h1 h2; simp only []; rw [if_pos (by omega)])
    (by rfl)
  have h2 := @retry_backoff_and_bounds Nat Nat
    (fun k => if k < 11 then .error k else .ok 0) (fun k => k) 0
    (by intro k h1 h2; simp only []; rw [if_pos (by omega)])
    (by rfl)
  exact ⟨h.1, h.2.1, h2.2.2 (fun _ => .ok 7) 7 (some 11) [] rfl⟩

/-- The decoder's other panic path: a `0xFE` entry whose stored `i32` size
is positive (here `+2`) wraps to near `2^64` under `(-size) as usize`,
passes the parity assertion, and panics with a capacity overflow in
`vec![0; size / 2]`; a stored `i32::MIN` wraps to `2^64 - 2^31` and panics
the same way. -/
theorem decode_strings_capacity_overflow_panics :
    decode_strings [0xfe, 0x02, 0x00, 0x00, 0x00] = .panicked ∧
    decode_strings [0xfe, 0x00, 0x00, 0x00, 0x80] = .panicked := by
  constructor
  · unfold decode_strings
    rw [decodeStringsGo_cons, if_pos rfl,
      show handleEntry [0x02, 0x00, 0x00, 0x00] = .panicked from by decide]
  · unfold decode_strings
    rw [decodeStringsGo_cons, if_pos rfl,
      show handleEntry [0x00, 0x00, 0x00, 0x80] = .panicked from by decide]

end Inno
